import Mathlib

/-!
Shallow embedding of the grade-ledger merge-and-aggregation engine of the
MarkingScripts repository, together with theorems settling the frozen claims.

The Python sources modelled here are:
  - `mark.py`                   (namespace `Mark`): `append_grades_row`
  - `generate_termly_report.py` (namespace `Termly`): `map_overall_to_symbols`,
    `detect_question_columns`, `normalize_name`, `find_all_grades_files`
    (its sort), the global question-column union and the student index of
    `main`
  - `generate_summary.py`       (namespace `Summary`): `map_overall_to_symbols`
  - `attach_comments.py`        (namespace `Attach`): `map_overall_to_symbols`
  - `editgrades.py`             (namespace `EditGrades`): the save path of
    `GradeEditor.on_save_clicked`

Python strings are modelled as Lean `String` (a wrapper around `List Char`);
`str.strip()`, `str.lower()`, `str.isdigit()` and `re` searches are modelled
by explicit character-list functions below (ASCII whitespace/digits/case,
which covers all data these scripts handle).  Python dicts (insertion
ordered, unique keys) are modelled as association lists with
replace-in-place update and append-on-new-key.  CSV files are modelled as a
header plus rows of strings; `csv.DictReader`/`DictWriter` behaviour
(zip with header, missing fields defaulted) is modelled explicitly.
-/

/-! ## Python string primitives -/

/-- Python `\s` / `str.strip()` whitespace, restricted to ASCII. -/
def pyWs (c : Char) : Bool :=
  c = ' ' ∨ c = '\t' ∨ c = '\n' ∨ c = '\r' ∨ c = '\x0b' ∨ c = '\x0c'

/-- Python `str.strip()`: drop leading and trailing whitespace. -/
def pyStrip (s : String) : String :=
  ⟨(((s.data.dropWhile pyWs).reverse.dropWhile pyWs).reverse)⟩

/-- Python `str.lower()` (ASCII letters). -/
def pyLowerChar (c : Char) : Char :=
  if 'A' ≤ c ∧ c ≤ 'Z' then Char.ofNat (c.toNat + 32) else c

/-- Python `str.lower()`. -/
def pyLower (s : String) : String := ⟨s.data.map pyLowerChar⟩

/-- ASCII digit test (Python `\d` / `str.isdigit()` on the data handled here). -/
def pyDigit (c : Char) : Bool := '0' ≤ c ∧ c ≤ '9'

/-- Python `str.isdigit()`: non-empty and all digits. -/
def pyIsDigit (s : String) : Bool := !s.data.isEmpty && s.data.all pyDigit

/-- Numeric value of a digit run (Python `int` on a digit string). -/
def digitsToNat (ds : List Char) : Nat :=
  ds.foldl (fun a c => 10 * a + (c.toNat - 48)) 0

/-- First maximal digit run of a character list (Python `re.search(r'\d+', s)`). -/
def firstDigitRun : List Char → Option (List Char)
  | [] => none
  | c :: rest =>
    if pyDigit c then some (c :: rest.takeWhile pyDigit) else firstDigitRun rest

/-! ## Association lists modelling Python dicts -/

/-- Dict lookup: value of the first binding of `k` (Python `d.get(k)`/`d[k]`;
Python dicts have unique keys, so first-binding lookup is faithful). -/
def alGet {α : Type} (d : List (String × α)) (k : String) : Option α :=
  match d with
  | [] => none
  | (k', v) :: rest => if k' = k then some v else alGet rest k

/-- Dict update: replace the value of an existing key in place, or append a
new binding (Python `d[k] = v` on an insertion-ordered dict). -/
def alSet {α : Type} (d : List (String × α)) (k : String) (v : α) :
    List (String × α) :=
  match d with
  | [] => [(k, v)]
  | (k', v') :: rest => if k' = k then (k, v) :: rest else (k', v') :: alSet rest k v

/-- First index satisfying a predicate (Python `for i, x in enumerate(...)`
with an early exit on the first hit). -/
def findFirstIdx {α : Type} (p : α → Bool) : List α → Option Nat
  | [] => none
  | x :: xs => if p x then some 0 else (findFirstIdx p xs).map (· + 1)

/-- Stable insertion into a key-sorted list: the new element goes in front of
the first element of greater-or-equal key.  Used by `insSortBy`. -/
def insertSorted {α : Type} (key : α → Nat) (x : α) : List α → List α
  | [] => [x]
  | y :: ys => if key x ≤ key y then x :: y :: ys else y :: insertSorted key x ys

/-- Stable sort by a natural-number key, modelling Python's stable `sorted`
/ `list.sort` with a `key=` function. -/
def insSortBy {α : Type} (key : α → Nat) : List α → List α
  | [] => []
  | x :: xs => insertSorted key x (insSortBy key xs)

namespace Mark

/-! ## `mark.py`, `append_grades_row` -/

/-- `base_columns` of `append_grades_row`. -/
def baseColumns : List String := ["Name", "SubmissionTime", "Feedback", "Overall"]

/-- Python `list.insert(pos, x)`. -/
def insertAt (l : List String) (pos : Nat) (x : String) : List String :=
  l.take pos ++ x :: l.drop pos

/-- One iteration of the base-column repair loop of `append_grades_row`
(lines 70–76): if `col` is missing, insert it after its canonical
predecessor `pred` when that predecessor is present, else at the front. -/
def insertBaseCol (header : List String) (pred : Option String) (col : String) :
    List String :=
  if col ∈ header then header
  else
    let pos :=
      match pred with
      | some p => if p ∈ header then header.indexOf p + 1 else 0
      | none => 0
    insertAt header pos col

/-- Lines 66–76 of `mark.py`: start from `base_columns` when the header is
empty, else insert any missing base column after its predecessor. -/
def ensureBaseColumns (header : List String) : List String :=
  if header = [] then baseColumns
  else
    insertBaseCol
      (insertBaseCol
        (insertBaseCol (insertBaseCol header none "Name")
          (some "Name") "SubmissionTime")
        (some "SubmissionTime") "Feedback")
      (some "Feedback") "Overall"

/-- Line 79: `header.index('Overall') + 1 if 'Overall' in header else len(header)`. -/
def qInsertPos (header : List String) : Nat :=
  if "Overall" ∈ header then header.indexOf "Overall" + 1 else header.length

/-- Lines 81–84: insert each missing incoming question key at the running
insertion cursor, advancing the cursor after each insertion. -/
def insertQKeys (header : List String) (pos : Nat) : List String → List String
  | [] => header
  | q :: rest =>
    if q ∈ header then insertQKeys header pos rest
    else insertQKeys (insertAt header pos q) (pos + 1) rest

/-- Lines 87–89: append `Feedback` and `Overall` if still missing. -/
def ensureFeedbackOverall (header : List String) : List String :=
  let h1 := if "Feedback" ∈ header then header else header ++ ["Feedback"]
  if "Overall" ∈ h1 then h1 else h1 ++ ["Overall"]

/-- Lines 105–106 and 113–114: append any incoming key still missing from
the header, in incoming order. -/
def appendMissingKeys (header : List String) (ks : List String) : List String :=
  ks.foldl (fun h k => if k ∈ h then h else h ++ [k]) header

/-- `re.match(r'^Q\d+$', k, re.IGNORECASE)`: `Q` or `q` followed by one or
more digits. -/
def isQKey (k : String) : Bool :=
  match k.data with
  | [] => false
  | c :: rest => (c = 'Q' ∨ c = 'q') && !rest.isEmpty && rest.all pyDigit

/-- `int(re.search(r'\d+', x).group())`: value of the first digit run. -/
def qKeyNum (k : String) : Nat :=
  match firstDigitRun k.data with
  | some ds => digitsToNat ds
  | none => 0

/-- Lines 48–51: the incoming `Q*` keys, sorted ascending by embedded number
(Python `sorted` is stable). -/
def incomingQKeys (incoming : List (String × String)) : List String :=
  insSortBy qKeyNum ((incoming.map Prod.fst).filter isQKey)

/-- The full header evolution of one `append_grades_row` call: base-column
repair, question-key insertion after `Overall`, the `Feedback`/`Overall`
safety appends, and the per-field appends of still-unknown keys (which the
update and append branches both perform, in incoming order). -/
def updateHeader (header₀ : List String) (incoming : List (String × String)) :
    List String :=
  appendMissingKeys
    (ensureFeedbackOverall
      (insertQKeys (ensureBaseColumns header₀) (qInsertPos (ensureBaseColumns header₀))
        (incomingQKeys incoming)))
    (incoming.map Prod.fst)

/-- Lines 60–63: `csv.DictReader` row as a dict (header zipped with the
stored values) with every value stripped. -/
def readRow (header : List String) (vals : List String) : List (String × String) :=
  (header.zip vals).map (fun p => (p.1, pyStrip p.2))

/-- Lines 103–107 / 112–116: overwrite the row with every incoming field. -/
def setFields (r : List (String × String)) (incoming : List (String × String)) :
    List (String × String) :=
  incoming.foldl (fun r p => alSet r p.1 p.2) r

/-- Lines 110–116: the fresh record of the append branch — every header
column defaulted to `""`, then overlaid with the incoming fields. -/
def newRecord (header : List String) (incoming : List (String × String)) :
    List (String × String) :=
  setFields (header.map (fun c => (c, ""))) incoming

/-- Lines 120–123: give every header column missing from the row the value `""`. -/
def fillRow (header : List String) (r : List (String × String)) :
    List (String × String) :=
  header.foldl (fun r c => if (alGet r c).isSome then r else alSet r c "") r

/-- Lines 127–131: `csv.DictWriter` with `fieldnames=header` and
`extrasaction='ignore'` stores, for each header column in order,
`r.get(col, '')`. -/
def projectRow (header : List String) (r : List (String × String)) :
    List String :=
  header.map (fun c => (alGet r c).getD "")

/-- `(x or '').strip().lower()` as used by the name match on line 96. -/
def nameKey (s : String) : String := pyLower (pyStrip s)

/-- Lines 94–98: the first existing row whose stripped, lowercased `Name`
equals the stripped, lowercased incoming name; no search at all when the
incoming name is blank. -/
def findMatch (sName : String) (rows : List (List (String × String))) : Option Nat :=
  if sName = "" then none
  else findFirstIdx (fun r => nameKey ((alGet r "Name").getD "") = pyLower sName) rows

/-- A stored grades CSV: the header line plus the data rows (each row a list
of cells positionally aligned with the header). -/
structure Ledger where
  header : List String
  rows : List (List String)
deriving Repr, DecidableEq

/-- `append_grades_row` of `mark.py` as a pure state transformer: `stored` is
the current `grades{assignment}.csv` content (`none` when the file does not
exist), `new_row` the incoming field dict; the result is the full CSV content
written back.  `None` values of the Python dict are already replaced by `""`
(line 45), so values are plain strings here. -/
def append_grades_row (stored : Option Ledger) (new_row : List (String × String)) :
    Ledger :=
  let incoming := new_row
  let header₀ : List String := match stored with | some L => L.header | none => []
  let existingRows : List (List (String × String)) :=
    match stored with
    | some L => L.rows.map (readRow L.header)
    | none => []
  let header := updateHeader header₀ incoming
  let sName := pyStrip ((alGet incoming "Name").getD "")
  let rows :=
    match findMatch sName existingRows with
    | some i => existingRows.set i (setFields (existingRows.getD i []) incoming)
    | none => existingRows ++ [newRecord header incoming]
  { header := header
    rows := rows.map (fun r => projectRow header (fillRow header r)) }

/-- The stored file content of a ledger: header line then data rows. -/
def renderLedger (L : Ledger) : List (List String) := L.header :: L.rows

/-- The sequence of observable on-disk states of the grades file during the
write of lines 126–131: `grades_csv.open('w')` truncates the file (state
`content.take 0 = []`), then the header and each row are written in turn.
A crash between any two steps leaves the file at one of these states. -/
def directWriteStates (content : List (List String)) : List (List (List String)) :=
  (List.range (content.length + 1)).map (fun k => content.take k)

/-- The on-disk states of the grades file while `append_grades_row` writes
its result. -/
def appendGradesRowWriteStates (stored : Option Ledger)
    (new_row : List (String × String)) : List (List (List String)) :=
  directWriteStates (renderLedger (append_grades_row stored new_row))

/-- Cell of a ledger by column name and row index: the stored value of the
(first) column named `c` in row `j`, reading the row positionally against
the header. -/
def cellAt (L : Ledger) (c : String) (j : Nat) : Option String :=
  alGet (L.header.zip (L.rows.getD j [])) c

end Mark

namespace EditGrades

/-! ## `editgrades.py`, the save path of `GradeEditor.on_save_clicked` -/

/-- Lines 199–210 of `editgrades.py`: the complete new CSV is written to
`self.csv_path + ".tmp"` and then moved over the original with the atomic
`os.replace`.  The observable states of the *target* file are therefore just
the old content and the new content. -/
def atomicSaveStates (old new : List (List String)) : List (List (List String)) :=
  [old, new]

end EditGrades

namespace Termly

/-! ## `generate_termly_report.py` -/

/-- The nine-entry symbol table of `map_overall_to_symbols`
(`generate_termly_report.py` lines 29–39). -/
def symbolTable : List (Int × String) :=
  [(1, "\\alpha +"), (2, "\\alpha"), (3, "\\alpha \\beta"), (4, "\\beta\\alpha"),
   (5, "\\beta"), (6, "\\beta\\gamma"), (7, "\\gamma\\beta"), (8, "\\gamma"),
   (9, "\\gamma-")]

/-- Lookup in an int-keyed dict (`overall in mapping` / `mapping[num]`). -/
def tblGet (t : List (Int × String)) (n : Int) : Option String :=
  match t with
  | [] => none
  | (k, v) :: rest => if k = n then some v else tblGet rest n

/-- Raw grade value: the Python argument is an int, a string, or `None`. -/
inductive GradeVal where
  | vInt (n : Int)
  | vStr (s : String)
  | vNone
deriving Repr, DecidableEq

/-- `map_overall_to_symbols` of `generate_termly_report.py` (lines 28–52):
explicit `None` check first, then the int branch, then the
stripped-digit-string branch, else the value back as a string with the
flag `False`.  `str(overall or "")` on a string argument is the string
itself (`""` when it is empty, which is again itself). -/
def map_overall_to_symbols (overall : GradeVal) : String × Bool :=
  match overall with
  | .vNone => ("", false)
  | .vInt n =>
    match tblGet symbolTable n with
    | some sym => (sym, true)
    | none => (toString n, false)
  | .vStr s₀ =>
    let s := pyStrip s₀
    if pyIsDigit s then
      match tblGet symbolTable (digitsToNat s.data : Int) with
      | some sym => (sym, true)
      | none => (s₀, false)
    else (s₀, false)

/-- Tail of the question patterns after the leading token:
`\s*[_\-]?\s*(\d+)` — optional whitespace, an optional single `_`/`-`,
optional whitespace, then a required digit run (returned).  Maximal munch
coincides with the regex here: taking an available separator can never
prevent a match that skipping it would allow. -/
def matchQTail (cs : List Char) : Option (List Char) :=
  let cs1 := cs.dropWhile pyWs
  let cs2 := match cs1 with
    | c :: rest => if c = '_' ∨ c = '-' then rest else cs1
    | [] => cs1
  let cs3 := cs2.dropWhile pyWs
  match cs3 with
  | c :: _ => if pyDigit c then some (cs3.takeWhile pyDigit) else none
  | [] => none

/-- `re.search(r'q\s*[_\-]?\s*(\d+)', low)`: leftmost position where the
pattern matches, returning the captured number. -/
def searchQNum : List Char → Option Nat
  | [] => none
  | c :: rest =>
    if c = 'q' then
      match matchQTail rest with
      | some ds => some (digitsToNat ds)
      | none => searchQNum rest
    else searchQNum rest

/-- `re.search(r'question\s*[_\-]?\s*(\d+)', low)`. -/
def searchQuestionNum : List Char → Option Nat
  | [] => none
  | c :: rest =>
    if c = 'q' ∧ rest.take 7 = ['u', 'e', 's', 't', 'i', 'o', 'n'] then
      match matchQTail (rest.drop 7) with
      | some ds => some (digitsToNat ds)
      | none => searchQuestionNum rest
    else searchQuestionNum rest

/-- `'q' in low` (note `'question' in low` implies `'q' in low`, so the
Python condition `'q' in low or 'question' in low` reduces to this). -/
def hasCharQ (cs : List Char) : Bool := cs.contains 'q'

/-- The per-name classification of `detect_question_columns` (lines
135–152): the first pattern, else the second, else the first digit run when
the lowercased name contains a `q`. -/
def qColNum (fn : String) : Option Nat :=
  let low := (pyLower fn).data
  match searchQNum low with
  | some n => some n
  | none =>
    match searchQuestionNum low with
    | some n => some n
    | none =>
      match firstDigitRun low with
      | some ds => if hasCharQ low then some (digitsToNat ds) else none
      | none => none

/-- A name that is question-like but carries no number (appended after the
numbered ones). -/
def isUnnumberedQ (fn : String) : Bool :=
  (qColNum fn).isNone && hasCharQ ((pyLower fn).data)

/-- The `(fn, qnum)` pairs collected by the loop of
`detect_question_columns`, in input order. -/
def numberedQCols (fieldnames : List String) : List (String × Nat) :=
  fieldnames.filterMap (fun fn => (qColNum fn).map (fun n => (fn, n)))

/-- `detect_question_columns` (lines 127–155): numbered question columns
stably sorted ascending by number, then the unnumbered question-like
columns in input order. -/
def detect_question_columns (fieldnames : List String) : List String :=
  (insSortBy (fun p => p.2) (numberedQCols fieldnames)).map Prod.fst
    ++ fieldnames.filter (fun fn => isUnnumberedQ fn)

/-- Collapse every whitespace run to a single space
(`re.sub(r'\s+', ' ', s)`); `prevWs` records whether the previous character
was part of a run already replaced. -/
def collapseChars : List Char → Bool → List Char
  | [], _ => []
  | c :: rest, prevWs =>
    if pyWs c then
      if prevWs then collapseChars rest true
      else ' ' :: collapseChars rest true
    else c :: collapseChars rest false

/-- `normalize_name` (lines 158–164): strip, lowercase, collapse whitespace. -/
def normalize_name (s : String) : String :=
  ⟨collapseChars (pyLower (pyStrip s)).data false⟩

/-- `find_all_grades_files` (lines 83–94) ends with
`candidates.sort(key=lambda x: x[0])`: the `(assignment number, file)`
candidates in ascending assignment order (Python sort is stable).  The
payload here is what `main` reads from the file: its header. -/
def find_all_grades_files (candidates : List (Nat × List String)) :
    List (Nat × List String) :=
  insSortBy (fun p => p.1) candidates

/-- Lines 249–251 of `main`: fold a file's question columns into the global
union, appending the not-yet-seen ones in order. -/
def addQcols (g : List String) (qcols : List String) : List String :=
  qcols.foldl (fun g q => if q ∈ g then g else g ++ [q]) g

/-- The global question-column union accumulated over the scanned files
(lines 224–251), starting from a given accumulator. -/
def globalQcolsFrom (g : List String) (files : List (Nat × List String)) :
    List String :=
  files.foldl (fun g nf => addQcols g (detect_question_columns nf.2)) g

/-- The global question-column union of a full run of `main`. -/
def globalQcols (files : List (Nat × List String)) : List String :=
  globalQcolsFrom [] files

/-- The per-assignment slice stored in the student index
(`students[key]['assignments'][num]`, lines 273–279). -/
structure AssignInfo where
  row : List (String × String)
  nameCol : Option String
  overallCol : Option String
  feedbackCol : Option String
  qcols : List String
deriving Repr, DecidableEq

/-- One entry of the student index (lines 267–272). -/
structure StudentEntry where
  displayName : String
  id : Option String
  assignments : List (Nat × AssignInfo)
deriving Repr, DecidableEq

/-- One scanned assignment file as `main` sees it (lines 237–247): number,
file name, resolved columns, and the data rows as dicts. -/
structure AggFile where
  number : Nat
  pathName : String
  nameCol : Option String
  idCol : Option String
  overallCol : Option String
  feedbackCol : Option String
  qcols : List String
  rows : List (List (String × String))
deriving Repr, DecidableEq

/-- `(row.get(col) or "").strip() if col else ""` (lines 261–262). -/
def optColGet (row : List (String × String)) : Option String → String
  | some c => pyStrip ((alGet row c).getD "")
  | none => ""

/-- The raw (stripped) name of a row under a file's name column. -/
def rawNameOf (f : AggFile) (row : List (String × String)) : String :=
  optColGet row f.nameCol

/-- The raw (stripped) id of a row under a file's id column. -/
def rawIdOf (f : AggFile) (row : List (String × String)) : String :=
  optColGet row f.idCol

/-- Line 263: `key = raw_id if raw_id else normalize_name(raw_name)` —
the identity key before the blank-key placeholder fallback. -/
def key0Of (f : AggFile) (row : List (String × String)) : String :=
  if rawIdOf f row ≠ "" then rawIdOf f row else normalize_name (rawNameOf f row)

/-- Lines 263–266: the key, with the unique placeholder
`_unknown_{file}_{len(students)}` when both name and id are blank. -/
def keyOf (students : List (String × StudentEntry)) (f : AggFile)
    (row : List (String × String)) : String :=
  if key0Of f row = "" then
    "_unknown_" ++ f.pathName ++ "_" ++ toString students.length
  else key0Of f row

/-- Lines 267–272: the fresh index entry created the first time a key is
seen — display name: raw name, else raw id, else `"(no name)"`; id: the raw
id when non-blank. -/
def freshEntry (f : AggFile) (row : List (String × String)) : StudentEntry :=
  { displayName :=
      if rawNameOf f row ≠ "" then rawNameOf f row
      else if rawIdOf f row ≠ "" then rawIdOf f row else "(no name)"
    id := if rawIdOf f row ≠ "" then some (rawIdOf f row) else none
    assignments := [] }

/-- Lines 260–279: process one row — insert a fresh entry when the key is
new, then store the per-assignment slice under the assignment number. -/
def processRow (students : List (String × StudentEntry)) (f : AggFile)
    (row : List (String × String)) : List (String × StudentEntry) :=
  let key := keyOf students f row
  let students' :=
    if (alGet students key).isSome then students
    else students ++ [(key, freshEntry f row)]
  match alGet students' key with
  | some e =>
    alSet students' key
      { e with assignments :=
          (alSetNat e.assignments f.number
            ⟨row, f.nameCol, f.overallCol, f.feedbackCol, f.qcols⟩) }
  | none => students'
where
  /-- `assignments[num] = {...}` on the Nat-keyed dict. -/
  alSetNat (d : List (Nat × AssignInfo)) (k : Nat) (v : AssignInfo) :
      List (Nat × AssignInfo) :=
    match d with
    | [] => [(k, v)]
    | (k', v') :: rest =>
      if k' = k then (k, v) :: rest else (k', v') :: alSetNat rest k v

/-- Process the rows of one file in order. -/
def processFile (students : List (String × StudentEntry)) (f : AggFile) :
    List (String × StudentEntry) :=
  f.rows.foldl (fun st row => processRow st f row) students

/-- The full student index of one aggregation run (lines 255–279). -/
def buildStudents (files : List AggFile) : List (String × StudentEntry) :=
  files.foldl processFile []

/-- What claim C5 asserts the retained display name to be: the first
non-blank raw name among the rows resolving (before the placeholder
fallback) to the given key, in scan order.  Stated from the claim's words,
for comparison with the code's `buildStudents`. -/
def claimFirstNonBlankName (files : List AggFile) (k : String) : Option String :=
  ((files.map (fun f => f.rows.map (fun row => (f, row)))).flatten.filter
      (fun fr => key0Of fr.1 fr.2 = k ∧ rawNameOf fr.1 fr.2 ≠ "")).head?.map
    (fun fr => rawNameOf fr.1 fr.2)

end Termly

namespace Summary

/-! ## `generate_summary.py` -/

/-- The symbol table of `map_overall_to_symbols` in `generate_summary.py`
(lines 26–36). -/
def symbolTable : List (Int × String) :=
  [(1, "\\alpha +"), (2, "\\alpha"), (3, "\\alpha \\beta"), (4, "\\beta\\alpha"),
   (5, "\\beta"), (6, "\\beta\\gamma"), (7, "\\gamma\\beta"), (8, "\\gamma"),
   (9, "\\gamma-")]

/-- `map_overall_to_symbols` of `generate_summary.py` (lines 25–47): no
explicit `None` check — a `None` argument falls into the string branch via
`(overall or "")`, yielding `("", False)`. -/
def map_overall_to_symbols (overall : Termly.GradeVal) : String × Bool :=
  match overall with
  | .vInt n =>
    match Termly.tblGet symbolTable n with
    | some sym => (sym, true)
    | none => (toString n, false)
  | .vStr s₀ =>
    let s := pyStrip s₀
    if pyIsDigit s then
      match Termly.tblGet symbolTable (digitsToNat s.data : Int) with
      | some sym => (sym, true)
      | none => (s₀, false)
    else (s₀, false)
  | .vNone =>
    let s := pyStrip ""
    if pyIsDigit s then
      match Termly.tblGet symbolTable (digitsToNat s.data : Int) with
      | some sym => (sym, true)
      | none => ("", false)
    else ("", false)

end Summary

namespace Attach

/-! ## `attach_comments.py` -/

/-- The symbol table of `map_overall_to_symbols` in `attach_comments.py`
(lines 41–51). -/
def symbolTable : List (Int × String) :=
  [(1, "\\alpha +"), (2, "\\alpha"), (3, "\\alpha \\beta"), (4, "\\beta\\alpha"),
   (5, "\\beta"), (6, "\\beta\\gamma"), (7, "\\gamma\\beta"), (8, "\\gamma"),
   (9, "\\gamma-")]

/-- `map_overall_to_symbols` of `attach_comments.py` (lines 33–65): same
shape as the `generate_summary.py` copy (int branch, stripped-digit-string
branch, fall through; no explicit `None` check). -/
def map_overall_to_symbols (overall : Termly.GradeVal) : String × Bool :=
  match overall with
  | .vInt n =>
    match Termly.tblGet symbolTable n with
    | some sym => (sym, true)
    | none => (toString n, false)
  | .vStr s₀ =>
    let s := pyStrip s₀
    if pyIsDigit s then
      match Termly.tblGet symbolTable (digitsToNat s.data : Int) with
      | some sym => (sym, true)
      | none => (s₀, false)
    else (s₀, false)
  | .vNone =>
    let s := pyStrip ""
    if pyIsDigit s then
      match Termly.tblGet symbolTable (digitsToNat s.data : Int) with
      | some sym => (sym, true)
      | none => ("", false)
    else ("", false)

end Attach

/-! ## Lemmas about the string primitives -/

theorem dropWhile_idem {α : Type} (p : α → Bool) (l : List α) :
    (l.dropWhile p).dropWhile p = l.dropWhile p := by
  induction l with
  | nil => rfl
  | cons a t ih =>
    by_cases h : p a
    · simp [List.dropWhile_cons, h, ih]
    · simp [List.dropWhile_cons, h]

theorem dropWhile_head_false {α : Type} {p : α → Bool} {l t : List α} {a : α}
    (h : l.dropWhile p = a :: t) : p a = false := by
  induction l with
  | nil => simp at h
  | cons b r ih =>
    by_cases hb : p b
    · rw [List.dropWhile_cons, if_pos hb] at h
      exact ih h
    · rw [List.dropWhile_cons, if_neg hb] at h
      cases h
      simpa using hb

theorem pyStrip_data (s : String) :
    (pyStrip s).data = ((s.data.dropWhile pyWs).reverse.dropWhile pyWs).reverse := rfl

/-- A prefix of a `dropWhile` result is unchanged by the same `dropWhile`. -/
theorem dropWhile_of_prefix_dropWhile {α : Type} (p : α → Bool) {l m : List α}
    (h : m <+: l.dropWhile p) : m.dropWhile p = m := by
  cases m with
  | nil => rfl
  | cons a t =>
    rcases h with ⟨rest, hrest⟩
    have hd : l.dropWhile p = a :: (t ++ rest) := by rw [← hrest]; rfl
    rw [List.dropWhile_cons, if_neg (by simp [dropWhile_head_false hd])]

/-- `str.strip()` is idempotent. -/
theorem pyStrip_idem (s : String) : pyStrip (pyStrip s) = pyStrip s := by
  rcases s with ⟨d⟩
  apply congrArg String.mk
  have hA : (((d.dropWhile pyWs).reverse.dropWhile pyWs).reverse).dropWhile pyWs
      = ((d.dropWhile pyWs).reverse.dropWhile pyWs).reverse :=
    dropWhile_of_prefix_dropWhile (l := d) pyWs (by
      have h2 := List.reverse_prefix.mpr
        (List.dropWhile_suffix (l := (d.dropWhile pyWs).reverse) pyWs)
      rwa [List.reverse_reverse] at h2)
  show ((((((d.dropWhile pyWs).reverse.dropWhile pyWs).reverse).dropWhile
      pyWs).reverse).dropWhile pyWs).reverse
      = ((d.dropWhile pyWs).reverse.dropWhile pyWs).reverse
  rw [hA, List.reverse_reverse,
    dropWhile_of_prefix_dropWhile (l := (d.dropWhile pyWs).reverse) pyWs
      (List.prefix_refl _)]

theorem pyStrip_empty : pyStrip "" = "" := rfl

/-! ## Lemmas about the dict model -/

theorem alGet_alSet_self {α : Type} (d : List (String × α)) (k : String) (v : α) :
    alGet (alSet d k v) k = some v := by
  induction d with
  | nil => simp [alGet, alSet]
  | cons p rest ih =>
    by_cases h : p.1 = k
    · simp [alSet, alGet, h]
    · simp [alSet, alGet, h, ih]

theorem alGet_alSet_ne {α : Type} (d : List (String × α)) {k k' : String} (v : α)
    (h : k' ≠ k) : alGet (alSet d k v) k' = alGet d k' := by
  induction d with
  | nil => simp [alGet, alSet, Ne.symm h]
  | cons p rest ih =>
    by_cases hp : p.1 = k
    · simp [alSet, alGet, hp, Ne.symm h]
    · simp [alSet, alGet, hp, ih]

theorem alGet_setFields_not_mem {r inc : List (String × String)} {c : String}
    (h : c ∉ inc.map Prod.fst) :
    alGet (Mark.setFields r inc) c = alGet r c := by
  induction inc generalizing r with
  | nil => rfl
  | cons p rest ih =>
    simp only [List.map_cons, List.mem_cons, not_or] at h
    rw [Mark.setFields, List.foldl_cons]
    rw [show List.foldl (fun r p => alSet r p.1 p.2) (alSet r p.1 p.2) rest
          = Mark.setFields (alSet r p.1 p.2) rest from rfl]
    rw [ih h.2]
    exact alGet_alSet_ne r p.2 h.1

theorem alGet_setFields_mem {r inc : List (String × String)} {k : String} {v : String}
    (hnd : (inc.map Prod.fst).Nodup) (h : alGet inc k = some v) :
    alGet (Mark.setFields r inc) k = some v := by
  induction inc generalizing r with
  | nil => simp [alGet] at h
  | cons p rest ih =>
    simp only [List.map_cons, List.nodup_cons] at hnd
    rw [Mark.setFields, List.foldl_cons]
    rw [show List.foldl (fun r p => alSet r p.1 p.2) (alSet r p.1 p.2) rest
          = Mark.setFields (alSet r p.1 p.2) rest from rfl]
    by_cases hp : p.1 = k
    · rw [alGet, if_pos hp] at h
      cases h
      rw [alGet_setFields_not_mem (hp ▸ hnd.1), hp, alGet_alSet_self]
    · rw [alGet, if_neg hp] at h
      exact ih hnd.2 h

theorem alGet_graph {α : Type} (h : List String) (f : String → α) (k : String) :
    alGet (h.map (fun c => (c, f c))) k = if k ∈ h then some (f k) else none := by
  induction h with
  | nil => simp [alGet]
  | cons c t ih =>
    by_cases hc : c = k
    · subst hc
      simp [alGet]
    · simp [alGet, hc, ih, Ne.symm hc]

theorem zip_map_graph {α : Type} (h : List String) (g : String → α) :
    h.zip (h.map g) = h.map (fun c => (c, g c)) := by
  induction h with
  | nil => rfl
  | cons c t ih => simp [List.zip_cons_cons, ih]

theorem alGet_mem {α : Type} {d : List (String × α)} {k : String} {v : α}
    (h : alGet d k = some v) : (k, v) ∈ d := by
  induction d with
  | nil => simp [alGet] at h
  | cons p rest ih =>
    by_cases hp : p.1 = k
    · rw [alGet, if_pos hp] at h
      cases h
      subst hp
      exact List.mem_cons_self _ _
    · rw [alGet, if_neg hp] at h
      exact List.mem_cons_of_mem _ (ih h)

/-! ## Lemmas about `findFirstIdx` -/

theorem findFirstIdx_eq_none_iff {α : Type} {p : α → Bool} {l : List α} :
    findFirstIdx p l = none ↔ ∀ x ∈ l, p x = false := by
  induction l with
  | nil => simp [findFirstIdx]
  | cons x xs ih =>
    by_cases h : p x
    · simp [findFirstIdx, h]
    · simp [findFirstIdx, h, ih]

theorem findFirstIdx_congr {α : Type} {p q : α → Bool} {l : List α}
    (h : ∀ x ∈ l, p x = q x) : findFirstIdx p l = findFirstIdx q l := by
  induction l with
  | nil => rfl
  | cons x xs ih =>
    have hx := h x (List.mem_cons_self x xs)
    rw [findFirstIdx, findFirstIdx, hx, ih (fun y hy => h y (List.mem_cons_of_mem _ hy))]

theorem findFirstIdx_map {α β : Type} (p : β → Bool) (f : α → β) (l : List α) :
    findFirstIdx p (l.map f) = findFirstIdx (fun x => p (f x)) l := by
  induction l with
  | nil => rfl
  | cons x xs ih => simp [findFirstIdx, ih]

theorem findFirstIdx_some_lt {α : Type} {p : α → Bool} {l : List α} {i : Nat}
    (h : findFirstIdx p l = some i) : i < l.length := by
  induction l generalizing i with
  | nil => simp [findFirstIdx] at h
  | cons x xs ih =>
    by_cases hx : p x
    · rw [findFirstIdx, if_pos hx] at h
      cases h
      simp
    · rw [findFirstIdx, if_neg hx] at h
      cases hj : findFirstIdx p xs with
      | none => rw [hj] at h; simp at h
      | some j =>
        rw [hj] at h
        simp only [Option.map_some'] at h
        cases h
        simpa using ih hj

theorem findFirstIdx_append_singleton {α : Type} {p : α → Bool} {l : List α} {x : α}
    (hl : findFirstIdx p l = none) (hx : p x = true) :
    findFirstIdx p (l ++ [x]) = some l.length := by
  induction l with
  | nil => simp [findFirstIdx, hx]
  | cons y ys ih =>
    by_cases hy : p y
    · rw [findFirstIdx, if_pos hy] at hl
      simp at hl
    · rw [findFirstIdx, if_neg hy] at hl
      cases hj : findFirstIdx p ys with
      | none =>
        rw [List.cons_append, findFirstIdx, if_neg hy, ih hj]
        rfl
      | some j => rw [hj] at hl; simp at hl

theorem findFirstIdx_set_of_some {α : Type} {p : α → Bool} {l : List α} {i : Nat} {x : α}
    (h : findFirstIdx p l = some i) (hx : p x = true) :
    findFirstIdx p (l.set i x) = some i := by
  induction l generalizing i with
  | nil => simp [findFirstIdx] at h
  | cons y ys ih =>
    by_cases hy : p y
    · rw [findFirstIdx, if_pos hy] at h
      cases h
      simp [List.set_cons_zero, findFirstIdx, hx]
    · rw [findFirstIdx, if_neg hy] at h
      cases hj : findFirstIdx p ys with
      | none => rw [hj] at h; simp at h
      | some j =>
        rw [hj] at h
        simp only [Option.map_some'] at h
        cases h
        rw [List.set_cons_succ, findFirstIdx, if_neg hy, ih hj]
        rfl

/-! ## Lemmas about the stable sort -/

theorem insertSorted_perm {α : Type} (key : α → Nat) (x : α) (l : List α) :
    List.Perm (insertSorted key x l) (x :: l) := by
  induction l with
  | nil => rfl
  | cons y ys ih =>
    rw [insertSorted]
    by_cases h : key x ≤ key y
    · rw [if_pos h]
    · rw [if_neg h]
      exact (ih.cons y).trans (List.Perm.swap x y ys)

theorem insSortBy_perm {α : Type} (key : α → Nat) (l : List α) :
    List.Perm (insSortBy key l) l := by
  induction l with
  | nil => rfl
  | cons x xs ih => exact (insertSorted_perm key x _).trans (ih.cons x)

theorem insertSorted_pairwise {α : Type} {key : α → Nat} {x : α} {l : List α}
    (hl : l.Pairwise (fun a b => key a ≤ key b)) :
    (insertSorted key x l).Pairwise (fun a b => key a ≤ key b) := by
  induction l with
  | nil => simp [insertSorted]
  | cons y ys ih =>
    rw [List.pairwise_cons] at hl
    rw [insertSorted]
    by_cases h : key x ≤ key y
    · rw [if_pos h]
      refine List.Pairwise.cons ?_ (List.Pairwise.cons hl.1 hl.2)
      intro a ha
      rcases List.mem_cons.mp ha with rfl | ha
      · exact h
      · exact le_trans h (hl.1 a ha)
    · rw [if_neg h]
      refine List.Pairwise.cons ?_ (ih hl.2)
      intro a ha
      rcases List.mem_cons.mp ((insertSorted_perm key x ys).mem_iff.mp ha) with rfl | ha
      · exact le_of_not_le h
      · exact hl.1 a ha

theorem insSortBy_pairwise {α : Type} (key : α → Nat) (l : List α) :
    (insSortBy key l).Pairwise (fun a b => key a ≤ key b) := by
  induction l with
  | nil => simp [insSortBy]
  | cons x xs ih => exact insertSorted_pairwise ih

theorem insertSorted_filter_key_eq {α : Type} {key : α → Nat} {x : α} {k : Nat}
    (hx : key x = k) (l : List α) :
    (insertSorted key x l).filter (fun a => key a = k)
      = x :: l.filter (fun a => key a = k) := by
  induction l with
  | nil => simp [insertSorted, List.filter, hx]
  | cons y ys ih =>
    rw [insertSorted]
    by_cases h : key x ≤ key y
    · rw [if_pos h, List.filter_cons, if_pos (by simp [hx])]
    · rw [if_neg h]
      have hy : (key y = k) = False := by
        simp only [eq_iff_iff, iff_false]
        omega
      rw [List.filter_cons, List.filter_cons]
      simp only [hy]
      simpa using ih

theorem insertSorted_filter_key_ne {α : Type} {key : α → Nat} {x : α} {k : Nat}
    (hx : key x ≠ k) (l : List α) :
    (insertSorted key x l).filter (fun a => key a = k)
      = l.filter (fun a => key a = k) := by
  induction l with
  | nil => simp [insertSorted, List.filter, hx]
  | cons y ys ih =>
    rw [insertSorted]
    by_cases h : key x ≤ key y
    · rw [if_pos h, List.filter_cons, if_neg (by simp [hx])]
    · rw [if_neg h, List.filter_cons, List.filter_cons]
      rw [ih]

/-- Stability of the sort: the elements of any fixed key keep their input
order (the filtered subsequences agree). -/
theorem insSortBy_filter_key {α : Type} (key : α → Nat) (l : List α) (k : Nat) :
    (insSortBy key l).filter (fun a => key a = k)
      = l.filter (fun a => key a = k) := by
  induction l with
  | nil => rfl
  | cons x xs ih =>
    rw [insSortBy]
    by_cases hx : key x = k
    · rw [insertSorted_filter_key_eq hx, ih, List.filter_cons, if_pos (by simp [hx])]
    · rw [insertSorted_filter_key_ne hx, ih, List.filter_cons, if_neg (by simp [hx])]

/-! ## Lemmas about the row pipeline of `append_grades_row` -/

namespace Mark

theorem readRow_projected (h : List String) (g : String → String) :
    readRow h (h.map g) = h.map (fun c => (c, pyStrip (g c))) := by
  rw [readRow, zip_map_graph]
  rw [List.map_map]
  rfl

theorem alGet_fillRow_getD (h : List String) (r : List (String × String))
    (c : String) :
    (alGet (fillRow h r) c).getD "" = (alGet r c).getD "" := by
  induction h generalizing r with
  | nil => rfl
  | cons c₀ t ih =>
    rw [fillRow, List.foldl_cons]
    rw [show List.foldl (fun r c => if (alGet r c).isSome then r else alSet r c "") _ t
          = fillRow t (if (alGet r c₀).isSome then r else alSet r c₀ "") from rfl]
    rw [ih]
    by_cases hs : (alGet r c₀).isSome
    · rw [if_pos hs]
    · rw [if_neg hs]
      by_cases hc : c₀ = c
      · subst hc
        rw [alGet_alSet_self]
        rw [Option.not_isSome_iff_eq_none] at hs
        rw [hs]
        rfl
      · rw [alGet_alSet_ne _ _ (Ne.symm hc)]

theorem projectRow_fillRow (h : List String) (r : List (String × String)) :
    projectRow h (fillRow h r) = h.map (fun c => (alGet r c).getD "") := by
  rw [projectRow]
  exact List.map_congr_left (fun c _ => alGet_fillRow_getD h r c)

theorem readRow_val_fixed {h : List String} {vals : List String} {k v : String}
    (hm : (k, v) ∈ readRow h vals) : pyStrip v = v := by
  rw [readRow] at hm
  rcases List.mem_map.mp hm with ⟨p, _, hp⟩
  have : v = pyStrip p.2 := congrArg Prod.snd hp.symm
  rw [this, pyStrip_idem]

end Mark

/-! ## Header-evolution lemmas for `append_grades_row` -/

namespace Mark

theorem insertAt_perm (l : List String) (pos : Nat) (x : String) :
    List.Perm (insertAt l pos x) (x :: l) := by
  rw [insertAt]
  calc List.Perm (l.take pos ++ x :: l.drop pos) (x :: (l.take pos ++ l.drop pos)) :=
        List.perm_middle
    _ = x :: l := by rw [List.take_append_drop]

theorem mem_insertAt_self (l : List String) (pos : Nat) (x : String) :
    x ∈ insertAt l pos x :=
  (insertAt_perm l pos x).mem_iff.mpr (List.mem_cons_self x l)

theorem mem_insertAt_of_mem {l : List String} {a : String} (pos : Nat) (x : String)
    (h : a ∈ l) : a ∈ insertAt l pos x :=
  (insertAt_perm l pos x).mem_iff.mpr (List.mem_cons_of_mem x h)

theorem mem_of_mem_insertAt {l : List String} {a x : String} {pos : Nat}
    (h : a ∈ insertAt l pos x) : a = x ∨ a ∈ l :=
  List.mem_cons.mp ((insertAt_perm l pos x).mem_iff.mp h)

theorem insertAt_decomp (A B : List String) (x : String) :
    insertAt (A ++ B) A.length x = A ++ x :: B := by
  rw [insertAt, List.take_left, List.drop_left]

theorem mem_insertBaseCol_of_mem {h : List String} {a : String}
    (pred : Option String) (col : String) (ha : a ∈ h) :
    a ∈ insertBaseCol h pred col := by
  unfold insertBaseCol
  by_cases hc : col ∈ h
  · rwa [if_pos hc]
  · rw [if_neg hc]
    exact mem_insertAt_of_mem _ _ ha

theorem mem_insertBaseCol_self (h : List String) (pred : Option String)
    (col : String) : col ∈ insertBaseCol h pred col := by
  unfold insertBaseCol
  by_cases hc : col ∈ h
  · rwa [if_pos hc]
  · rw [if_neg hc]
    exact mem_insertAt_self _ _ _

theorem insertBaseCol_of_mem {h : List String} {col : String}
    (pred : Option String) (hc : col ∈ h) : insertBaseCol h pred col = h := by
  unfold insertBaseCol
  rw [if_pos hc]

theorem base_mem_ensureBaseColumns {c : String} (h : List String)
    (hc : c ∈ baseColumns) : c ∈ ensureBaseColumns h := by
  rw [ensureBaseColumns]
  by_cases hh : h = []
  · rwa [if_pos hh]
  · rw [if_neg hh]
    rcases List.mem_cons.mp hc with rfl | hc
    · exact mem_insertBaseCol_of_mem _ _
        (mem_insertBaseCol_of_mem _ _
          (mem_insertBaseCol_of_mem _ _ (mem_insertBaseCol_self _ _ _)))
    rcases List.mem_cons.mp hc with rfl | hc
    · exact mem_insertBaseCol_of_mem _ _
        (mem_insertBaseCol_of_mem _ _ (mem_insertBaseCol_self _ _ _))
    rcases List.mem_cons.mp hc with rfl | hc
    · exact mem_insertBaseCol_of_mem _ _ (mem_insertBaseCol_self _ _ _)
    rcases List.mem_cons.mp hc with rfl | hc
    · exact mem_insertBaseCol_self _ _ _
    · simp at hc

theorem mem_ensureBaseColumns_of_mem {h : List String} {a : String}
    (ha : a ∈ h) : a ∈ ensureBaseColumns h := by
  rw [ensureBaseColumns]
  by_cases hh : h = []
  · rw [hh] at ha; simp at ha
  · rw [if_neg hh]
    exact mem_insertBaseCol_of_mem _ _
      (mem_insertBaseCol_of_mem _ _
        (mem_insertBaseCol_of_mem _ _ (mem_insertBaseCol_of_mem _ _ ha)))

theorem ensureBaseColumns_of_base_subset {h : List String}
    (hb : ∀ c ∈ baseColumns, c ∈ h) : ensureBaseColumns h = h := by
  have hne : h ≠ [] := by
    intro hh
    have := hb "Name" (by simp [baseColumns])
    rw [hh] at this
    simp at this
  rw [ensureBaseColumns, if_neg hne,
    insertBaseCol_of_mem _ (hb "Name" (by simp [baseColumns])),
    insertBaseCol_of_mem _ (hb "SubmissionTime" (by simp [baseColumns])),
    insertBaseCol_of_mem _ (hb "Feedback" (by simp [baseColumns])),
    insertBaseCol_of_mem _ (hb "Overall" (by simp [baseColumns]))]

theorem mem_insertQKeys_of_mem {h : List String} {a : String} {pos : Nat}
    {qs : List String} (ha : a ∈ h) : a ∈ insertQKeys h pos qs := by
  induction qs generalizing h pos with
  | nil => exact ha
  | cons q rest ih =>
    rw [insertQKeys]
    by_cases hq : q ∈ h
    · rw [if_pos hq]; exact ih ha
    · rw [if_neg hq]; exact ih (mem_insertAt_of_mem _ _ ha)

theorem mem_insertQKeys_self {h : List String} {q : String} {pos : Nat}
    {qs : List String} (hq : q ∈ qs) : q ∈ insertQKeys h pos qs := by
  induction qs generalizing h pos with
  | nil => simp at hq
  | cons q₀ rest ih =>
    rw [insertQKeys]
    rcases List.mem_cons.mp hq with rfl | hq
    · by_cases h₀ : q ∈ h
      · rw [if_pos h₀]; exact mem_insertQKeys_of_mem h₀
      · rw [if_neg h₀]
        exact mem_insertQKeys_of_mem (mem_insertAt_self _ _ _)
    · by_cases h₀ : q₀ ∈ h
      · rw [if_pos h₀]; exact ih hq
      · rw [if_neg h₀]; exact ih hq

theorem insertQKeys_of_subset {h : List String} {pos : Nat} {qs : List String}
    (hq : ∀ q ∈ qs, q ∈ h) : insertQKeys h pos qs = h := by
  induction qs with
  | nil => rfl
  | cons q rest ih =>
    rw [insertQKeys, if_pos (hq q (List.mem_cons_self q rest))]
    exact ih (fun q' hq' => hq q' (List.mem_cons_of_mem _ hq'))

theorem mem_ensureFeedbackOverall_of_mem {h : List String} {a : String}
    (ha : a ∈ h) : a ∈ ensureFeedbackOverall h := by
  rw [ensureFeedbackOverall]
  by_cases h1 : "Feedback" ∈ h
  · rw [if_pos h1]
    by_cases h2 : "Overall" ∈ h
    · rwa [if_pos h2]
    · rw [if_neg h2]; exact List.mem_append_left _ ha
  · rw [if_neg h1]
    by_cases h2 : "Overall" ∈ h ++ ["Feedback"]
    · rw [if_pos h2]; exact List.mem_append_left _ ha
    · rw [if_neg h2]; exact List.mem_append_left _ (List.mem_append_left _ ha)

theorem ensureFeedbackOverall_of_mem {h : List String}
    (h1 : "Feedback" ∈ h) (h2 : "Overall" ∈ h) : ensureFeedbackOverall h = h := by
  rw [ensureFeedbackOverall, if_pos h1, if_pos h2]

theorem mem_appendMissingKeys_of_mem {h : List String} {a : String}
    {ks : List String} (ha : a ∈ h) : a ∈ appendMissingKeys h ks := by
  induction ks generalizing h with
  | nil => exact ha
  | cons k rest ih =>
    rw [appendMissingKeys, List.foldl_cons]
    rw [show List.foldl (fun h k => if k ∈ h then h else h ++ [k])
          (if k ∈ h then h else h ++ [k]) rest
        = appendMissingKeys (if k ∈ h then h else h ++ [k]) rest from rfl]
    by_cases hk : k ∈ h
    · rw [if_pos hk]; exact ih ha
    · rw [if_neg hk]; exact ih (List.mem_append_left _ ha)

theorem mem_appendMissingKeys_self {h : List String} {k : String}
    {ks : List String} (hk : k ∈ ks) : k ∈ appendMissingKeys h ks := by
  induction ks generalizing h with
  | nil => simp at hk
  | cons k₀ rest ih =>
    rw [appendMissingKeys, List.foldl_cons]
    rw [show List.foldl (fun h k => if k ∈ h then h else h ++ [k])
          (if k₀ ∈ h then h else h ++ [k₀]) rest
        = appendMissingKeys (if k₀ ∈ h then h else h ++ [k₀]) rest from rfl]
    rcases List.mem_cons.mp hk with rfl | hk
    · by_cases h₀ : k ∈ h
      · rw [if_pos h₀]; exact mem_appendMissingKeys_of_mem h₀
      · rw [if_neg h₀]
        exact mem_appendMissingKeys_of_mem
          (List.mem_append_right _ (List.mem_cons_self _ _))
    · by_cases h₀ : k₀ ∈ h
      · rw [if_pos h₀]; exact ih hk
      · rw [if_neg h₀]; exact ih hk

theorem appendMissingKeys_of_subset {h : List String} {ks : List String}
    (hk : ∀ k ∈ ks, k ∈ h) : appendMissingKeys h ks = h := by
  induction ks with
  | nil => rfl
  | cons k rest ih =>
    rw [appendMissingKeys, List.foldl_cons, if_pos (hk k (List.mem_cons_self k rest))]
    exact ih (fun k' hk' => hk k' (List.mem_cons_of_mem _ hk'))

theorem appendMissingKeys_exists_append (h : List String) (ks : List String) :
    ∃ e, appendMissingKeys h ks = h ++ e := by
  induction ks generalizing h with
  | nil => exact ⟨[], by simp [appendMissingKeys]⟩
  | cons k rest ih =>
    rw [appendMissingKeys, List.foldl_cons]
    rw [show List.foldl (fun h k => if k ∈ h then h else h ++ [k])
          (if k ∈ h then h else h ++ [k]) rest
        = appendMissingKeys (if k ∈ h then h else h ++ [k]) rest from rfl]
    by_cases hk : k ∈ h
    · rw [if_pos hk]; exact ih h
    · rw [if_neg hk]
      rcases ih (h ++ [k]) with ⟨e, he⟩
      exact ⟨[k] ++ e, by rw [he, List.append_assoc]⟩

theorem mem_updateHeader_of_mem {h₀ : List String} {a : String}
    {f : List (String × String)} (ha : a ∈ h₀) : a ∈ updateHeader h₀ f :=
  mem_appendMissingKeys_of_mem
    (mem_ensureFeedbackOverall_of_mem
      (mem_insertQKeys_of_mem (mem_ensureBaseColumns_of_mem ha)))

theorem base_mem_updateHeader {c : String} (h₀ : List String)
    (f : List (String × String)) (hc : c ∈ baseColumns) :
    c ∈ updateHeader h₀ f :=
  mem_appendMissingKeys_of_mem
    (mem_ensureFeedbackOverall_of_mem
      (mem_insertQKeys_of_mem (base_mem_ensureBaseColumns h₀ hc)))

theorem qkeys_mem_updateHeader {q : String} {h₀ : List String}
    {f : List (String × String)} (hq : q ∈ incomingQKeys f) :
    q ∈ updateHeader h₀ f :=
  mem_appendMissingKeys_of_mem
    (mem_ensureFeedbackOverall_of_mem (mem_insertQKeys_self hq))

theorem keys_mem_updateHeader {k : String} {h₀ : List String}
    {f : List (String × String)} (hk : k ∈ f.map Prod.fst) :
    k ∈ updateHeader h₀ f :=
  mem_appendMissingKeys_self hk

/-- Applying the header evolution to an already-updated header changes
nothing: the second `append_grades_row` call with the same fields sees all
columns already present. -/
theorem updateHeader_idem (h₀ : List String) (f : List (String × String)) :
    updateHeader (updateHeader h₀ f) f = updateHeader h₀ f := by
  rw [updateHeader]
  rw [ensureBaseColumns_of_base_subset
    (fun c hc => base_mem_updateHeader h₀ f hc)]
  rw [insertQKeys_of_subset (fun q hq => qkeys_mem_updateHeader hq)]
  rw [ensureFeedbackOverall_of_mem
    (base_mem_updateHeader h₀ f (by simp [baseColumns]))
    (base_mem_updateHeader h₀ f (by simp [baseColumns]))]
  exact appendMissingKeys_of_subset (fun k hk => keys_mem_updateHeader hk)

end Mark

/-! ## Row-pipeline lemmas for `append_grades_row` -/

theorem alGet_isSome_of_mem_keys {α : Type} {d : List (String × α)} {c : String}
    (h : c ∈ d.map Prod.fst) : ∃ v, alGet d c = some v := by
  induction d with
  | nil => simp at h
  | cons p rest ih =>
    by_cases hp : p.1 = c
    · exact ⟨p.2, by rw [alGet, if_pos hp]⟩
    · rw [List.map_cons, List.mem_cons] at h
      rcases h with h | h
      · exact absurd h.symm hp
      · rcases ih h with ⟨v, hv⟩
        exact ⟨v, by rw [alGet, if_neg hp, hv]⟩

theorem alGet_eq_none_of_not_mem_keys {α : Type} {d : List (String × α)} {c : String}
    (h : c ∉ d.map Prod.fst) : alGet d c = none := by
  induction d with
  | nil => rfl
  | cons p rest ih =>
    simp only [List.map_cons, List.mem_cons, not_or] at h
    rw [alGet, if_neg (fun hh => h.1 hh.symm), ih h.2]

namespace Mark

/-- Lookup in an association list whose values were mapped. -/
theorem alGet_map_values {α β : Type} (F : α → β) (d : List (String × α)) (c : String) :
    alGet (d.map (fun p => (p.1, F p.2))) c = (alGet d c).map F := by
  induction d with
  | nil => rfl
  | cons p rest ih =>
    by_cases hp : p.1 = c
    · simp [alGet, hp]
    · simp [alGet, hp, ih]

theorem alGet_zip_not_mem {header : List String} (vals : List String) {c : String}
    (hc : c ∉ header) : alGet (header.zip vals) c = none := by
  induction header generalizing vals with
  | nil => rfl
  | cons c₀ t ih =>
    cases vals with
    | nil => rfl
    | cons v vs =>
      simp only [List.mem_cons, not_or] at hc
      rw [List.zip_cons_cons, alGet, if_neg (fun hh => hc.1 hh.symm), ih vs hc.2]

theorem alGet_readRow (header vals : List String) (c : String) :
    alGet (readRow header vals) c = (alGet (header.zip vals) c).map pyStrip := by
  rw [readRow]
  exact alGet_map_values pyStrip (header.zip vals) c

theorem alGet_reread' (h : List String) (g : String → String) (c : String) :
    alGet (readRow h (h.map g)) c = if c ∈ h then some (pyStrip (g c)) else none := by
  rw [readRow_projected, alGet_graph]

theorem alGet_reread (h : List String) (d : List (String × String)) (c : String) :
    alGet (readRow h (projectRow h (fillRow h d))) c
      = if c ∈ h then some (pyStrip ((alGet d c).getD "")) else none := by
  rw [projectRow_fillRow, readRow_projected, alGet_graph]

theorem alGet_getD_strip_fixed {r : List (String × String)}
    (hr : ∀ p ∈ r, pyStrip p.2 = p.2) (c : String) :
    pyStrip ((alGet r c).getD "") = (alGet r c).getD "" := by
  cases hv : alGet r c with
  | none => exact pyStrip_empty
  | some v => exact hr _ (alGet_mem hv)

/-- Re-reading a written row and rewriting it produces the same stored row,
when the underlying dict has whitespace-trimmed values. -/
theorem pf_reread_of_strip_fixed (h : List String) {r : List (String × String)}
    (hr : ∀ p ∈ r, pyStrip p.2 = p.2) :
    projectRow h (fillRow h (readRow h (projectRow h (fillRow h r))))
      = projectRow h (fillRow h r) := by
  rw [projectRow_fillRow, projectRow_fillRow]
  apply List.map_congr_left
  intro c hc
  rw [alGet_reread', if_pos hc, Option.getD_some]
  exact alGet_getD_strip_fixed hr c

/-- Re-reading an updated-and-written row and applying the same field
updates again produces the same stored row. -/
theorem pf_setFields_reread (h : List String) (f : List (String × String))
    {d : List (String × String)} (hd : ∀ p ∈ d, pyStrip p.2 = p.2)
    (hnd : (f.map Prod.fst).Nodup) :
    projectRow h (fillRow h
        (setFields (readRow h (projectRow h (fillRow h (setFields d f)))) f))
      = projectRow h (fillRow h (setFields d f)) := by
  rw [projectRow_fillRow, projectRow_fillRow]
  apply List.map_congr_left
  intro c hc
  by_cases hcf : c ∈ f.map Prod.fst
  · rcases alGet_isSome_of_mem_keys hcf with ⟨v, hv⟩
    rw [alGet_setFields_mem hnd hv, alGet_setFields_mem hnd hv]
  · rw [alGet_setFields_not_mem hcf, alGet_reread', if_pos hc, Option.getD_some,
      alGet_setFields_not_mem hcf]
    exact alGet_getD_strip_fixed hd c

theorem matchPred_reread (h : List String) (hNm : "Name" ∈ h) (sN : String)
    (d : List (String × String)) :
    (decide (nameKey ((alGet (readRow h (projectRow h (fillRow h d)))
        "Name").getD "") = pyLower sN))
      = decide (nameKey ((alGet d "Name").getD "") = pyLower sN) := by
  rw [alGet_reread, if_pos hNm, Option.getD_some]
  have hk : nameKey (pyStrip ((alGet d "Name").getD ""))
      = nameKey ((alGet d "Name").getD "") := by
    rw [nameKey, nameKey, pyStrip_idem]
  rw [hk]

theorem matchPred_setFields {f : List (String × String)} {vName : String}
    (hnd : (f.map Prod.fst).Nodup) (hv : alGet f "Name" = some vName)
    (d : List (String × String)) :
    decide (nameKey ((alGet (setFields d f) "Name").getD "")
        = pyLower (pyStrip vName)) = true := by
  rw [alGet_setFields_mem hnd hv, Option.getD_some]
  simp [nameKey]

theorem append_header_some (L : Ledger) (f : List (String × String)) :
    (append_grades_row (some L) f).header = updateHeader L.header f := rfl

theorem append_header_none (f : List (String × String)) :
    (append_grades_row none f).header = updateHeader [] f := rfl

theorem append_rows_some (L : Ledger) (f : List (String × String)) :
    (append_grades_row (some L) f).rows
      = (match findMatch (pyStrip ((alGet f "Name").getD ""))
            (L.rows.map (readRow L.header)) with
         | some i =>
            (L.rows.map (readRow L.header)).set i
              (setFields ((L.rows.map (readRow L.header)).getD i []) f)
         | none =>
            L.rows.map (readRow L.header)
              ++ [newRecord (updateHeader L.header f) f]).map
          (fun r => projectRow (updateHeader L.header f)
            (fillRow (updateHeader L.header f) r)) := rfl

theorem append_rows_none (f : List (String × String)) :
    (append_grades_row none f).rows
      = [projectRow (updateHeader [] f)
          (fillRow (updateHeader [] f) (newRecord (updateHeader [] f) f))] := by
  show (match findMatch (pyStrip ((alGet f "Name").getD ""))
      ([] : List (List (String × String))) with
    | some i =>
      ([] : List (List (String × String))).set i
        (setFields (([] : List (List (String × String))).getD i []) f)
    | none => [] ++ [newRecord (updateHeader [] f) f]).map
      (fun r => projectRow (updateHeader [] f) (fillRow (updateHeader [] f) r)) = _
  have hm : findMatch (pyStrip ((alGet f "Name").getD ""))
      ([] : List (List (String × String))) = none := by
    rw [findMatch]
    split <;> rfl
  rw [hm]
  rfl

theorem readRows_strip_fixed (L : Ledger) :
    ∀ r ∈ L.rows.map (readRow L.header), ∀ p ∈ r, pyStrip p.2 = p.2 := by
  intro r hr p hp
  rcases List.mem_map.mp hr with ⟨vals, _, rfl⟩
  exact readRow_val_fixed (k := p.1) (v := p.2) hp

theorem newRecord_base_strip_fixed (h : List String) :
    ∀ p ∈ h.map (fun c => (c, "")), pyStrip p.2 = (p.2 : String) := by
  intro p hp
  rcases List.mem_map.mp hp with ⟨c, _, rfl⟩
  exact pyStrip_empty

end Mark

namespace Mark

/-- Core of the idempotence argument: re-applying the same fields to the
ledger just written by `append_grades_row` reproduces that ledger, provided
the written header is stable under the header evolution, the incoming name
binding is present and non-blank, the same row index matches, and rewriting
each written row is the identity. -/
theorem reapply_eq (H : List String) (f : List (String × String))
    (rows₁ : List (List (String × String))) (w : String) (i : Nat)
    (hidem : updateHeader H f = H)
    (hNm : "Name" ∈ H)
    (hv : alGet f "Name" = some w)
    (hname : pyStrip w ≠ "")
    (hfind : findFirstIdx
        (fun r => decide (nameKey ((alGet r "Name").getD "")
          = pyLower (pyStrip w))) rows₁ = some i)
    (hrow_i : projectRow H (fillRow H (setFields
        (readRow H (projectRow H (fillRow H (rows₁.getD i [])))) f))
      = projectRow H (fillRow H (rows₁.getD i [])))
    (hrow_j : ∀ j, j < rows₁.length → j ≠ i →
      projectRow H (fillRow H (readRow H (projectRow H (fillRow H (rows₁.getD j [])))))
        = projectRow H (fillRow H (rows₁.getD j []))) :
    append_grades_row
        (some ⟨H, rows₁.map (fun r => projectRow H (fillRow H r))⟩) f
      = ⟨H, rows₁.map (fun r => projectRow H (fillRow H r))⟩ := by
  have hi : i < rows₁.length := findFirstIdx_some_lt hfind
  have hsN : pyStrip ((alGet f "Name").getD "") = pyStrip w := by rw [hv]; rfl
  have hfind₂ : findFirstIdx
      (fun r => decide (nameKey ((alGet r "Name").getD "") = pyLower (pyStrip w)))
      (rows₁.map (fun r => readRow H (projectRow H (fillRow H r)))) = some i := by
    rw [findFirstIdx_map]
    rw [findFirstIdx_congr (fun x _ => matchPred_reread H hNm (pyStrip w) x)]
    exact hfind
  have hm₂ : findMatch (pyStrip ((alGet f "Name").getD ""))
      ((rows₁.map (fun r => projectRow H (fillRow H r))).map (readRow H)) = some i := by
    rw [findMatch, hsN, if_neg hname, List.map_map]
    exact hfind₂
  have h1 : (append_grades_row
      (some ⟨H, rows₁.map (fun r => projectRow H (fillRow H r))⟩) f).header = H := by
    rw [append_header_some]
    exact hidem
  have h2 : (append_grades_row
      (some ⟨H, rows₁.map (fun r => projectRow H (fillRow H r))⟩) f).rows
      = rows₁.map (fun r => projectRow H (fillRow H r)) := by
    show (match findMatch (pyStrip ((alGet f "Name").getD ""))
        ((rows₁.map (fun r => projectRow H (fillRow H r))).map (readRow H)) with
      | some i =>
        ((rows₁.map (fun r => projectRow H (fillRow H r))).map (readRow H)).set i
          (setFields (((rows₁.map (fun r => projectRow H (fillRow H r))).map
            (readRow H)).getD i []) f)
      | none =>
        (rows₁.map (fun r => projectRow H (fillRow H r))).map (readRow H)
          ++ [newRecord (updateHeader H f) f]).map
        (fun r => projectRow (updateHeader H f) (fillRow (updateHeader H f) r))
      = rows₁.map (fun r => projectRow H (fillRow H r))
    rw [hm₂, hidem]
    show (((rows₁.map (fun r => projectRow H (fillRow H r))).map (readRow H)).set i
        (setFields (((rows₁.map (fun r => projectRow H (fillRow H r))).map
          (readRow H)).getD i []) f)).map
        (fun r => projectRow H (fillRow H r))
      = rows₁.map (fun r => projectRow H (fillRow H r))
    rw [List.map_map]
    simp only [Function.comp_def]
    have hmap_len : i < (rows₁.map
        (fun r => readRow H (projectRow H (fillRow H r)))).length := by
      simpa using hi
    have hgetD : (rows₁.map
          (fun r => readRow H (projectRow H (fillRow H r)))).getD i []
        = readRow H (projectRow H (fillRow H (rows₁.getD i []))) := by
      rw [List.getD_eq_getElem _ _ hmap_len, List.getElem_map,
        List.getD_eq_getElem _ _ hi]
    rw [hgetD, List.map_set, List.map_map]
    simp only [Function.comp_def]
    apply List.ext_getElem
    · simp
    · intro j hj1 hj2
      by_cases hji : j = i
      · subst hji
        rw [List.getElem_set_self _, List.getElem_map]
        rw [hrow_i, List.getD_eq_getElem _ _ (by simpa using hj2)]
      · rw [List.getElem_set_ne (fun hh => hji hh.symm), List.getElem_map,
          List.getElem_map]
        have hjlen : j < rows₁.length := by simpa using hj2
        have hj' := hrow_j j hjlen hji
        rw [List.getD_eq_getElem _ _ hjlen] at hj'
        exact hj'
  have hfinal : ∀ L : Ledger, L.header = H →
      L.rows = rows₁.map (fun r => projectRow H (fillRow H r)) →
      L = ⟨H, rows₁.map (fun r => projectRow H (fillRow H r))⟩ := by
    intro L hh hr
    rcases L with ⟨lh, lr⟩
    have hh' : lh = H := hh
    have hr' : lr = rows₁.map (fun r => projectRow H (fillRow H r)) := hr
    rw [hh', hr']
  exact hfinal _ h1 h2

end Mark

namespace Mark

theorem exists_name_val {f : List (String × String)}
    (hname : pyStrip ((alGet f "Name").getD "") ≠ "") :
    ∃ v, alGet f "Name" = some v ∧ pyStrip v ≠ "" := by
  cases hv : alGet f "Name" with
  | none =>
    rw [hv] at hname
    exact absurd rfl hname
  | some v =>
    rw [hv] at hname
    exact ⟨v, rfl, hname⟩

theorem getD_set_self {α : Type} (l : List α) (i : Nat) (x d : α)
    (hi : i < l.length) : (l.set i x).getD i d = x := by
  rw [List.getD_eq_getElem _ _ (by simpa using hi), List.getElem_set_self _]

theorem getD_set_ne {α : Type} (l : List α) {i j : Nat} (x d : α)
    (hj : j < l.length) (hne : j ≠ i) : (l.set i x).getD j d = l.getD j d := by
  rw [List.getD_eq_getElem _ _ (by simpa using hj),
    List.getElem_set_ne (fun hh => hne hh.symm), List.getD_eq_getElem _ _ hj]

theorem getD_concat_length {α : Type} (l : List α) (x d : α) :
    (l ++ [x]).getD l.length d = x := by
  rw [List.getD_eq_getElem _ _ (by simp)]
  exact List.getElem_concat_length l x l.length rfl (by simp)

theorem getD_append_left {α : Type} (l : List α) (l' : List α) {j : Nat} (d : α)
    (hj : j < l.length) : (l ++ l').getD j d = l.getD j d := by
  rw [List.getD_eq_getElem _ _ (by simp; omega), List.getD_eq_getElem _ _ hj]
  exact List.getElem_append_left _

/-- `append_grades_row` is idempotent whenever the incoming `Name` value is
non-blank after trimming: the second application reproduces the first one's
ledger exactly (header and all rows). -/
theorem append_grades_row_idem (stored : Option Ledger)
    (f : List (String × String))
    (hnd : (f.map Prod.fst).Nodup)
    (hname : pyStrip ((alGet f "Name").getD "") ≠ "") :
    append_grades_row (some (append_grades_row stored f)) f
      = append_grades_row stored f := by
  rcases exists_name_val hname with ⟨vName, hv, hvne⟩
  have hsN : pyStrip ((alGet f "Name").getD "") = pyStrip vName := by rw [hv]; rfl
  cases stored with
  | none =>
    have hL₁ : append_grades_row none f
        = ⟨updateHeader [] f,
          ([newRecord (updateHeader [] f) f]).map
            (fun r => projectRow (updateHeader [] f)
              (fillRow (updateHeader [] f) r))⟩ := by
      have h1 := append_header_none f
      have h2 := append_rows_none f
      rcases hL : append_grades_row none f with ⟨lh, lr⟩
      rw [hL] at h1 h2
      have h1' : lh = updateHeader [] f := h1
      have h2' : lr = [projectRow (updateHeader [] f)
          (fillRow (updateHeader [] f) (newRecord (updateHeader [] f) f))] := h2
      rw [h1', h2']
      rfl
    rw [hL₁]
    apply reapply_eq (w := vName) (i := 0)
    · exact updateHeader_idem [] f
    · exact base_mem_updateHeader [] f (by simp [baseColumns])
    · exact hv
    · exact hvne
    · have hpred : decide (nameKey ((alGet (newRecord (updateHeader [] f) f)
          "Name").getD "") = pyLower (pyStrip vName)) = true :=
        matchPred_setFields hnd hv ((updateHeader [] f).map (fun c => (c, "")))
      rw [findFirstIdx, if_pos hpred]
    · exact pf_setFields_reread _ f (newRecord_base_strip_fixed _) hnd
    · intro j hj hj0
      simp only [List.length_singleton] at hj
      omega
  | some L =>
    have hL₁ : append_grades_row (some L) f
        = ⟨updateHeader L.header f,
          (match findMatch (pyStrip ((alGet f "Name").getD ""))
              (L.rows.map (readRow L.header)) with
           | some i =>
              (L.rows.map (readRow L.header)).set i
                (setFields ((L.rows.map (readRow L.header)).getD i []) f)
           | none =>
              L.rows.map (readRow L.header)
                ++ [newRecord (updateHeader L.header f) f]).map
            (fun r => projectRow (updateHeader L.header f)
              (fillRow (updateHeader L.header f) r))⟩ := by
      rcases hL : append_grades_row (some L) f with ⟨lh, lr⟩
      have h1 := append_header_some L f
      have h2 := append_rows_some L f
      rw [hL] at h1 h2
      have h1' : lh = updateHeader L.header f := h1
      have h2' : lr = List.map (fun r => projectRow (updateHeader L.header f)
          (fillRow (updateHeader L.header f) r))
          (match findMatch (pyStrip ((alGet f "Name").getD ""))
              (List.map (readRow L.header) L.rows) with
           | some i => (List.map (readRow L.header) L.rows).set i
              (setFields ((List.map (readRow L.header) L.rows).getD i []) f)
           | none => List.map (readRow L.header) L.rows
              ++ [newRecord (updateHeader L.header f) f]) := h2
      rw [h1', h2']
    rw [hL₁]
    cases hm : findMatch (pyStrip ((alGet f "Name").getD ""))
        (L.rows.map (readRow L.header)) with
    | some i =>
      have hm' : findFirstIdx
          (fun r => decide (nameKey ((alGet r "Name").getD "")
            = pyLower (pyStrip vName))) (L.rows.map (readRow L.header))
          = some i := by
        rw [findMatch] at hm
        rw [hsN] at hm
        rw [if_neg hvne] at hm
        exact hm
      have hi : i < (L.rows.map (readRow L.header)).length :=
        findFirstIdx_some_lt hm'
      apply reapply_eq (w := vName) (i := i)
      · exact updateHeader_idem L.header f
      · exact base_mem_updateHeader L.header f (by simp [baseColumns])
      · exact hv
      · exact hvne
      · exact findFirstIdx_set_of_some hm' (matchPred_setFields hnd hv _)
      · rw [getD_set_self _ _ _ _ hi]
        apply pf_setFields_reread _ f _ hnd
        intro p hp
        have hmem : (L.rows.map (readRow L.header)).getD i [] ∈
            L.rows.map (readRow L.header) := by
          rw [List.getD_eq_getElem _ _ hi]
          exact List.getElem_mem hi
        exact readRows_strip_fixed L _ hmem p hp
      · intro j hj hji
        rw [List.length_set] at hj
        rw [getD_set_ne _ _ _ hj hji]
        apply pf_reread_of_strip_fixed
        intro p hp
        have hmem : (L.rows.map (readRow L.header)).getD j [] ∈
            L.rows.map (readRow L.header) := by
          rw [List.getD_eq_getElem _ _ hj]
          exact List.getElem_mem hj
        exact readRows_strip_fixed L _ hmem p hp
    | none =>
      have hm' : findFirstIdx
          (fun r => decide (nameKey ((alGet r "Name").getD "")
            = pyLower (pyStrip vName))) (L.rows.map (readRow L.header))
          = none := by
        rw [findMatch] at hm
        rw [hsN] at hm
        rw [if_neg hvne] at hm
        exact hm
      apply reapply_eq (w := vName)
        (i := (L.rows.map (readRow L.header)).length)
      · exact updateHeader_idem L.header f
      · exact base_mem_updateHeader L.header f (by simp [baseColumns])
      · exact hv
      · exact hvne
      · exact findFirstIdx_append_singleton hm' (matchPred_setFields hnd hv _)
      · rw [getD_concat_length]
        exact pf_setFields_reread _ f (newRecord_base_strip_fixed _) hnd
      · intro j hj hji
        rw [List.length_append, List.length_singleton] at hj
        have hjlt : j < (L.rows.map (readRow L.header)).length := by omega
        rw [getD_append_left _ _ _ hjlt]
        apply pf_reread_of_strip_fixed
        intro p hp
        have hmem : (L.rows.map (readRow L.header)).getD j [] ∈
            L.rows.map (readRow L.header) := by
          rw [List.getD_eq_getElem _ _ hjlt]
          exact List.getElem_mem hjlt
        exact readRows_strip_fixed L _ hmem p hp

end Mark

/-! ## Claim theorems -/

/-- Claim C10: the three copies of the Grade Symbol Codec
(`map_overall_to_symbols` in `generate_summary.py`, `generate_termly_report.py`
and `attach_comments.py`) are extensionally equal: for every input (integer,
string, or `None`) all three return the same (display string, pre-encoded
flag) pair. -/
theorem c10_codec_copies_extensionally_equal :
    ∀ v : Termly.GradeVal,
      Summary.map_overall_to_symbols v = Termly.map_overall_to_symbols v
      ∧ Attach.map_overall_to_symbols v = Termly.map_overall_to_symbols v := by
  intro v
  cases v <;> exact ⟨rfl, rfl⟩

theorem tblGet_termly_some {n : Int} (h1 : 1 ≤ n) (h9 : n ≤ 9) :
    ∃ sym, Termly.tblGet Termly.symbolTable n = some sym ∧ sym ≠ "" := by
  interval_cases n <;> exact ⟨_, rfl, by decide⟩

theorem tblGet_termly_none {n : Int} (h : ¬(1 ≤ n ∧ n ≤ 9)) :
    Termly.tblGet Termly.symbolTable n = none := by
  simp only [Termly.symbolTable, Termly.tblGet]
  split_ifs <;> first | rfl | omega

theorem termly_int_eval (n : Int) :
    Termly.map_overall_to_symbols (.vInt n)
      = match Termly.tblGet Termly.symbolTable n with
        | some sym => (sym, true)
        | none => (toString n, false) := rfl

theorem termly_str_eval (s : String) :
    Termly.map_overall_to_symbols (.vStr s)
      = if pyIsDigit (pyStrip s) = true then
          match Termly.tblGet Termly.symbolTable
              ((digitsToNat (pyStrip s).data : Nat) : Int) with
          | some sym => (sym, true)
          | none => (s, false)
        else (s, false) := rfl

/-- Claim C9 counterexample: `" 5 "` is not a digit string (Python
`" 5 ".isdigit()` is `False`), yet the codec strips it first and maps it to
a pre-encoded symbol instead of returning it unchanged with the flag
`false` — refuting the claim's "every other input is returned unchanged
with the flag false". -/
theorem c9_counterexample :
    pyIsDigit " 5 " = false
    ∧ Termly.map_overall_to_symbols (.vStr " 5 ") = ("\\beta", true)
    ∧ (Termly.map_overall_to_symbols (.vStr " 5 ")).1 ≠ " 5 "
    ∧ (Termly.map_overall_to_symbols (.vStr " 5 ")).2 ≠ false := by decide

/-- Claim C9 (amended): for every integer 1..9 and every string whose
*stripped* form is a digit string denoting 1..9, the codec returns a
non-empty pre-encoded symbol; every other integer is returned as its
decimal string with the flag false, every other string is returned
unchanged with the flag false, and `None` yields `("", false)`. -/
theorem c9_amended :
    (∀ n : Int, 1 ≤ n → n ≤ 9 →
      ∃ sym, Termly.map_overall_to_symbols (.vInt n) = (sym, true) ∧ sym ≠ "")
    ∧ (∀ n : Int, ¬(1 ≤ n ∧ n ≤ 9) →
      Termly.map_overall_to_symbols (.vInt n) = (toString n, false))
    ∧ (∀ s : String, pyIsDigit (pyStrip s) = true →
      1 ≤ digitsToNat (pyStrip s).data → digitsToNat (pyStrip s).data ≤ 9 →
      ∃ sym, Termly.map_overall_to_symbols (.vStr s) = (sym, true) ∧ sym ≠ "")
    ∧ (∀ s : String,
      ¬(pyIsDigit (pyStrip s) = true ∧ 1 ≤ digitsToNat (pyStrip s).data
          ∧ digitsToNat (pyStrip s).data ≤ 9) →
      Termly.map_overall_to_symbols (.vStr s) = (s, false))
    ∧ Termly.map_overall_to_symbols .vNone = ("", false) := by
  refine ⟨?_, ?_, ?_, ?_, rfl⟩
  · intro n h1 h9
    rcases tblGet_termly_some h1 h9 with ⟨sym, hsym, hne⟩
    exact ⟨sym, by rw [termly_int_eval, hsym], hne⟩
  · intro n h
    rw [termly_int_eval, tblGet_termly_none h]
  · intro s hd h1 h9
    rcases tblGet_termly_some (n := (digitsToNat (pyStrip s).data : Int))
        (by exact_mod_cast h1) (by exact_mod_cast h9) with ⟨sym, hsym, hne⟩
    exact ⟨sym, by rw [termly_str_eval, if_pos hd, hsym], hne⟩
  · intro s h
    by_cases hd : pyIsDigit (pyStrip s) = true
    · have hb : ¬(1 ≤ (digitsToNat (pyStrip s).data : Int)
          ∧ (digitsToNat (pyStrip s).data : Int) ≤ 9) := by
        intro hcon
        exact h ⟨hd, by exact_mod_cast hcon.1, by exact_mod_cast hcon.2⟩
      rw [termly_str_eval, if_pos hd, tblGet_termly_none hb]
    · rw [termly_str_eval, if_neg hd]

/-- Claim C9 witness: the amended theorem applied at the concrete inputs
`3`, `12`, `"007"` and `"ns"`. -/
theorem c9_amended_witness :
    (∃ sym, Termly.map_overall_to_symbols (.vInt 3) = (sym, true) ∧ sym ≠ "")
    ∧ Termly.map_overall_to_symbols (.vInt 12) = (toString (12 : Int), false)
    ∧ (∃ sym, Termly.map_overall_to_symbols (.vStr "007") = (sym, true) ∧ sym ≠ "")
    ∧ Termly.map_overall_to_symbols (.vStr "ns") = ("ns", false) :=
  ⟨c9_amended.1 3 (by decide) (by decide),
   c9_amended.2.1 12 (by decide),
   c9_amended.2.2.1 "007" (by decide) (by decide) (by decide),
   c9_amended.2.2.2.1 "ns" (by decide)⟩

/-- Claim C2 counterexample: `append_grades_row` persists by opening the
grades file in write mode (truncating it) and writing the new content
sequentially; the truncated intermediate state is neither the previous
ledger version nor the final one, so a failure partway through the write
does not leave the previous version intact. -/
theorem c2_counterexample :
    ∃ s ∈ Mark.appendGradesRowWriteStates
        (some ⟨["Name", "SubmissionTime", "Feedback", "Overall"],
          [["Bob", "", "", "2"]]⟩)
        [("Name", "Bob"), ("Overall", "5")],
      s ≠ Mark.renderLedger
          ⟨["Name", "SubmissionTime", "Feedback", "Overall"], [["Bob", "", "", "2"]]⟩
      ∧ s ≠ Mark.renderLedger
          (Mark.append_grades_row
            (some ⟨["Name", "SubmissionTime", "Feedback", "Overall"],
              [["Bob", "", "", "2"]]⟩)
            [("Name", "Bob"), ("Overall", "5")]) := by
  refine ⟨[], by decide, by decide, by decide⟩

/-- Claim C2 (amended): the save path of `GradeEditor.on_save_clicked`
(`editgrades.py`) writes the complete new content to a temporary file and
atomically replaces the target, so the target file is only ever observed as
the old or the new content; `append_grades_row` (`mark.py`) instead
truncates the target and writes sequentially, so an intermediate state is
always some prefix of the new content (possibly empty), not necessarily the
previous version. -/
theorem c2_amended :
    (∀ old new : List (List String),
      ∀ s ∈ EditGrades.atomicSaveStates old new, s = old ∨ s = new)
    ∧ (∀ (stored : Option Mark.Ledger) (f : List (String × String)),
      ∀ s ∈ Mark.appendGradesRowWriteStates stored f,
        ∃ k, s = (Mark.renderLedger (Mark.append_grades_row stored f)).take k) := by
  constructor
  · intro old new s hs
    rcases List.mem_cons.mp hs with rfl | hs
    · exact Or.inl rfl
    · rcases List.mem_cons.mp hs with rfl | hs
      · exact Or.inr rfl
      · simp at hs
  · intro stored f s hs
    rw [Mark.appendGradesRowWriteStates, Mark.directWriteStates] at hs
    rcases List.mem_map.mp hs with ⟨k, _, rfl⟩
    exact ⟨k, rfl⟩

/-- Claim C2 witness: the amended theorem applied at concrete file
contents. -/
theorem c2_amended_witness :
    ([["Name"]] = [["Name"]] ∨ [["Name"]] = [["Name"], ["Al"]])
    ∧ ∃ k, ([] : List (List String))
        = (Mark.renderLedger (Mark.append_grades_row none [("Name", "Al")])).take k :=
  ⟨c2_amended.1 [["Name"]] [["Name"], ["Al"]] [["Name"]] (by decide),
   c2_amended.2 none [("Name", "Al")] [] (by decide)⟩

/-- Claim C3 counterexample: with a `fields` mapping whose `Name` value is
blank, `append_grades_row` never matches an existing row, so applying the
identical fields twice appends two rows while applying once appends one —
the final ledger contents differ, refuting idempotence for *every* fields
mapping containing a Name value. -/
theorem c3_counterexample :
    Mark.append_grades_row
        (some (Mark.append_grades_row none [("Name", "")])) [("Name", "")]
      ≠ Mark.append_grades_row none [("Name", "")]
    ∧ (Mark.append_grades_row
        (some (Mark.append_grades_row none [("Name", "")])) [("Name", "")]).rows.length = 2
    ∧ (Mark.append_grades_row none [("Name", "")]).rows.length = 1 := by decide

/-- Claim C3 (amended): merge is idempotent for every ledger state and
every fields mapping (with distinct keys, as a Python dict has) whose
`Name` value is non-blank after trimming: applying `append_grades_row`
twice with identical fields produces a ledger (header and all rows)
identical to applying it once. -/
theorem c3_amended (stored : Option Mark.Ledger) (f : List (String × String))
    (hnd : (f.map Prod.fst).Nodup)
    (hname : pyStrip ((alGet f "Name").getD "") ≠ "") :
    Mark.append_grades_row (some (Mark.append_grades_row stored f)) f
      = Mark.append_grades_row stored f :=
  Mark.append_grades_row_idem stored f hnd hname

/-- Claim C3 witness: idempotence at a concrete ledger and concrete
fields. -/
theorem c3_amended_witness :
    Mark.append_grades_row
        (some (Mark.append_grades_row
          (some ⟨["Name", "SubmissionTime", "Feedback", "Overall", "Q1"],
            [["Alice", "", "", "3", "7"], ["Bob", "", "", "2", "5"]]⟩)
          [("Name", "alice "), ("Q2", " 8"), ("Feedback", "ok")]))
        [("Name", "alice "), ("Q2", " 8"), ("Feedback", "ok")]
      = Mark.append_grades_row
        (some ⟨["Name", "SubmissionTime", "Feedback", "Overall", "Q1"],
          [["Alice", "", "", "3", "7"], ["Bob", "", "", "2", "5"]]⟩)
        [("Name", "alice "), ("Q2", " 8"), ("Feedback", "ok")] :=
  c3_amended
    (some ⟨["Name", "SubmissionTime", "Feedback", "Overall", "Q1"],
      [["Alice", "", "", "3", "7"], ["Bob", "", "", "2", "5"]]⟩)
    [("Name", "alice "), ("Q2", " 8"), ("Feedback", "ok")]
    (by decide) (by decide)

theorem alGet_append_some {α : Type} {d₁ : List (String × α)} (d₂ : List (String × α))
    {k : String} {v : α} (h : alGet d₁ k = some v) : alGet (d₁ ++ d₂) k = some v := by
  induction d₁ with
  | nil => simp [alGet] at h
  | cons p rest ih =>
    by_cases hp : p.1 = k
    · rw [alGet, if_pos hp] at h
      rw [List.cons_append, alGet, if_pos hp, h]
    · rw [alGet, if_neg hp] at h
      rw [List.cons_append, alGet, if_neg hp]
      exact ih h

theorem alGet_append_none {α : Type} {d₁ : List (String × α)} (d₂ : List (String × α))
    {k : String} (h : alGet d₁ k = none) : alGet (d₁ ++ d₂) k = alGet d₂ k := by
  induction d₁ with
  | nil => rfl
  | cons p rest ih =>
    by_cases hp : p.1 = k
    · rw [alGet, if_pos hp] at h
      simp at h
    · rw [alGet, if_neg hp] at h
      rw [List.cons_append, alGet, if_neg hp]
      exact ih h

namespace Termly

theorem processRow_preserves (st : List (String × StudentEntry)) (f : AggFile)
    (row : List (String × String)) (k : String) (e : StudentEntry)
    (h : alGet st k = some e) :
    ∃ e', alGet (processRow st f row) k = some e'
      ∧ e'.displayName = e.displayName ∧ e'.id = e.id := by
  rw [processRow]
  by_cases hk : (alGet st (keyOf st f row)).isSome
  · rw [if_pos hk]
    rcases Option.isSome_iff_exists.mp hk with ⟨e₀, he₀⟩
    rw [he₀]
    by_cases hkk : k = keyOf st f row
    · subst hkk
      rw [h] at he₀
      cases he₀
      exact ⟨_, alGet_alSet_self st _ _, rfl, rfl⟩
    · exact ⟨e, by rw [alGet_alSet_ne _ _ hkk]; exact h, rfl, rfl⟩
  · rw [if_neg hk]
    have hknone : alGet st (keyOf st f row) = none :=
      Option.not_isSome_iff_eq_none.mp hk
    have hne : k ≠ keyOf st f row := by
      intro hh
      rw [hh, hknone] at h
      exact Option.noConfusion h
    have happ : alGet (st ++ [(keyOf st f row, freshEntry f row)]) (keyOf st f row)
        = some (freshEntry f row) := by
      rw [alGet_append_none _ hknone, alGet, if_pos rfl]
    rw [happ]
    refine ⟨e, ?_, rfl, rfl⟩
    rw [alGet_alSet_ne _ _ hne]
    exact alGet_append_some _ h

theorem processFile_preserves (f : AggFile) :
    ∀ (st : List (String × StudentEntry)) (k : String) (e : StudentEntry),
      alGet st k = some e →
      ∃ e', alGet (processFile st f) k = some e'
        ∧ e'.displayName = e.displayName ∧ e'.id = e.id := by
  have haux : ∀ (rows : List (List (String × String)))
      (st : List (String × StudentEntry)) (k : String) (e : StudentEntry),
      alGet st k = some e →
      ∃ e', alGet (rows.foldl (fun st row => processRow st f row) st) k = some e'
        ∧ e'.displayName = e.displayName ∧ e'.id = e.id := by
    intro rows
    induction rows with
    | nil => exact fun st k e h => ⟨e, h, rfl, rfl⟩
    | cons row rest ih =>
      intro st k e h
      rcases processRow_preserves st f row k e h with ⟨e', he', hd, hid⟩
      rcases ih (processRow st f row) k e' he' with ⟨e'', he'', hd', hid'⟩
      exact ⟨e'', he'', hd'.trans hd, hid'.trans hid⟩
  exact haux f.rows

theorem processFiles_preserves (files : List AggFile) :
    ∀ (st : List (String × StudentEntry)) (k : String) (e : StudentEntry),
      alGet st k = some e →
      ∃ e', alGet (files.foldl processFile st) k = some e'
        ∧ e'.displayName = e.displayName ∧ e'.id = e.id := by
  induction files with
  | nil => exact fun st k e h => ⟨e, h, rfl, rfl⟩
  | cons f rest ih =>
    intro st k e h
    rcases processFile_preserves f st k e h with ⟨e', he', hd, hid⟩
    rcases ih (processFile st f) k e' he' with ⟨e'', he'', hd', hid'⟩
    exact ⟨e'', he'', hd'.trans hd, hid'.trans hid⟩

theorem processRow_new_key (st : List (String × StudentEntry)) (f : AggFile)
    (row : List (String × String))
    (h : alGet st (keyOf st f row) = none) :
    (alGet (processRow st f row) (keyOf st f row)).map StudentEntry.displayName
      = some (if rawNameOf f row ≠ "" then rawNameOf f row
          else if rawIdOf f row ≠ "" then rawIdOf f row else "(no name)") := by
  rw [processRow]
  rw [if_neg (by rw [h]; exact Bool.false_ne_true)]
  have happ : alGet (st ++ [(keyOf st f row, freshEntry f row)]) (keyOf st f row)
      = some (freshEntry f row) := by
    rw [alGet_append_none _ h, alGet, if_pos rfl]
  rw [happ, alGet_alSet_self]
  rfl

end Termly

/-- Claim C8 counterexample: for a row whose id cell is `" X1 "`, the
trimmed id is non-empty, but the Identity Resolver's key is the *trimmed*
id `"X1"`, not the id taken verbatim. -/
theorem c8_counterexample :
    pyStrip " X1 " ≠ ""
    ∧ alGet [("Name", "Bob"), ("ID", " X1 ")] "ID" = some " X1 "
    ∧ Termly.key0Of
        ⟨1, "grades1.csv", some "Name", some "ID", none, none, [],
          [[("Name", "Bob"), ("ID", " X1 ")]]⟩
        [("Name", "Bob"), ("ID", " X1 ")] = "X1"
    ∧ Termly.key0Of
        ⟨1, "grades1.csv", some "Name", some "ID", none, none, [],
          [[("Name", "Bob"), ("ID", " X1 ")]]⟩
        [("Name", "Bob"), ("ID", " X1 ")] ≠ " X1 " := by decide

/-- Claim C8 (amended): the Identity Resolver computes the key as the
*trimmed* id when that is non-empty (no case folding), and otherwise as the
trimmed, whitespace-collapsed, lowercased name; `"Jane Doe"` and
`"  jane   doe "` with no id resolve to the same key, and rows with equal
trimmed ids and equivalent normalized names resolve to the same key. -/
theorem c8_amended :
    (∀ (f : Termly.AggFile) (row : List (String × String)),
      Termly.rawIdOf f row ≠ "" → Termly.key0Of f row = Termly.rawIdOf f row)
    ∧ (∀ (f : Termly.AggFile) (row : List (String × String)),
      Termly.rawIdOf f row = "" →
      Termly.key0Of f row = Termly.normalize_name (Termly.rawNameOf f row))
    ∧ (∀ (f₁ : Termly.AggFile) (r₁ : List (String × String))
        (f₂ : Termly.AggFile) (r₂ : List (String × String)),
      Termly.rawIdOf f₁ r₁ = Termly.rawIdOf f₂ r₂ →
      Termly.normalize_name (Termly.rawNameOf f₁ r₁)
        = Termly.normalize_name (Termly.rawNameOf f₂ r₂) →
      Termly.key0Of f₁ r₁ = Termly.key0Of f₂ r₂)
    ∧ Termly.normalize_name "Jane Doe" = Termly.normalize_name "  jane   doe " := by
  refine ⟨?_, ?_, ?_, by decide⟩
  · intro f row h
    rw [Termly.key0Of, if_pos h]
  · intro f row h
    rw [Termly.key0Of, if_neg (fun hh => hh h)]
  · intro f₁ r₁ f₂ r₂ hid hname
    rw [Termly.key0Of, Termly.key0Of, hid, hname]

/-- Claim C8 witness: the amended theorem applied at concrete rows — an
id-keyed row and the `"Jane Doe"` / `"  jane   doe "` pair. -/
theorem c8_amended_witness :
    Termly.key0Of
        ⟨1, "grades1.csv", some "Name", some "ID", none, none, [],
          [[("Name", "Bob"), ("ID", "X9")]]⟩
        [("Name", "Bob"), ("ID", "X9")]
      = Termly.rawIdOf
        ⟨1, "grades1.csv", some "Name", some "ID", none, none, [],
          [[("Name", "Bob"), ("ID", "X9")]]⟩
        [("Name", "Bob"), ("ID", "X9")]
    ∧ Termly.key0Of
        ⟨1, "grades1.csv", some "Name", none, none, none, [],
          [[("Name", "Jane Doe")]]⟩ [("Name", "Jane Doe")]
      = Termly.key0Of
        ⟨1, "grades1.csv", some "Name", none, none, none, [],
          [[("Name", "  jane   doe ")]]⟩ [("Name", "  jane   doe ")] :=
  ⟨c8_amended.1 _ [("Name", "Bob"), ("ID", "X9")] (by decide),
   c8_amended.2.2.1
     ⟨1, "grades1.csv", some "Name", none, none, none, [],
       [[("Name", "Jane Doe")]]⟩ [("Name", "Jane Doe")]
     ⟨1, "grades1.csv", some "Name", none, none, none, [],
       [[("Name", "  jane   doe ")]]⟩ [("Name", "  jane   doe ")]
     (by decide) (by decide)⟩

/-- Claim C5 counterexample: for id key `"X1"`, the first row has a blank
raw name (so the entry is created with the id as display name) and the
second row carries the non-blank raw name `"Alice"`; the retained display
name stays `"X1"`, not the first non-blank raw name seen for that key. -/
theorem c5_counterexample :
    (alGet (Termly.buildStudents
        [⟨1, "grades1.csv", some "Name", some "ID", none, none, [],
          [[("Name", ""), ("ID", "X1")], [("Name", "Alice"), ("ID", "X1")]]⟩])
      "X1").map Termly.StudentEntry.displayName = some "X1"
    ∧ Termly.claimFirstNonBlankName
        [⟨1, "grades1.csv", some "Name", some "ID", none, none, [],
          [[("Name", ""), ("ID", "X1")], [("Name", "Alice"), ("ID", "X1")]]⟩]
        "X1" = some "Alice"
    ∧ "X1" ≠ "Alice" := by decide

/-- Claim C5 (amended): the retained display name (and id) of an identity
key is fixed when the key's entry is first created — it is the creating
row's raw name if non-blank, else its raw id if non-blank, else
`"(no name)"` — and no later row (blank-named or not) ever changes it. -/
theorem c5_amended :
    (∀ (st : List (String × Termly.StudentEntry)) (f : Termly.AggFile)
        (row : List (String × String)) (k : String) (e : Termly.StudentEntry),
      alGet st k = some e →
      ∃ e', alGet (Termly.processRow st f row) k = some e'
        ∧ e'.displayName = e.displayName ∧ e'.id = e.id)
    ∧ (∀ (files : List Termly.AggFile) (st : List (String × Termly.StudentEntry))
        (k : String) (e : Termly.StudentEntry),
      alGet st k = some e →
      ∃ e', alGet (files.foldl Termly.processFile st) k = some e'
        ∧ e'.displayName = e.displayName ∧ e'.id = e.id)
    ∧ (∀ (st : List (String × Termly.StudentEntry)) (f : Termly.AggFile)
        (row : List (String × String)),
      alGet st (Termly.keyOf st f row) = none →
      (alGet (Termly.processRow st f row) (Termly.keyOf st f row)).map
          Termly.StudentEntry.displayName
        = some (if Termly.rawNameOf f row ≠ "" then Termly.rawNameOf f row
            else if Termly.rawIdOf f row ≠ "" then Termly.rawIdOf f row
            else "(no name)")) :=
  ⟨Termly.processRow_preserves,
   fun files => Termly.processFiles_preserves files,
   Termly.processRow_new_key⟩

/-- Claim C5 witness: the amended theorem applied at a concrete state — a
later row for an existing key preserves the display name, and a fresh
id-only key is created with the id as display name. -/
theorem c5_amended_witness :
    (∃ e', alGet (Termly.processRow
        [("X1", ⟨"X1", some "X1", []⟩)]
        ⟨1, "grades1.csv", some "Name", some "ID", none, none, [],
          [[("Name", "Alice"), ("ID", "X1")]]⟩
        [("Name", "Alice"), ("ID", "X1")]) "X1" = some e'
      ∧ e'.displayName = (⟨"X1", some "X1", []⟩ : Termly.StudentEntry).displayName
      ∧ e'.id = (⟨"X1", some "X1", []⟩ : Termly.StudentEntry).id)
    ∧ (alGet (Termly.processRow []
        ⟨1, "grades1.csv", some "Name", some "ID", none, none, [],
          [[("Name", ""), ("ID", "X1")]]⟩
        [("Name", ""), ("ID", "X1")])
        (Termly.keyOf []
          ⟨1, "grades1.csv", some "Name", some "ID", none, none, [],
            [[("Name", ""), ("ID", "X1")]]⟩
          [("Name", ""), ("ID", "X1")])).map Termly.StudentEntry.displayName
      = some (if Termly.rawNameOf
            ⟨1, "grades1.csv", some "Name", some "ID", none, none, [],
              [[("Name", ""), ("ID", "X1")]]⟩
            [("Name", ""), ("ID", "X1")] ≠ ""
          then Termly.rawNameOf
            ⟨1, "grades1.csv", some "Name", some "ID", none, none, [],
              [[("Name", ""), ("ID", "X1")]]⟩
            [("Name", ""), ("ID", "X1")]
          else if Termly.rawIdOf
            ⟨1, "grades1.csv", some "Name", some "ID", none, none, [],
              [[("Name", ""), ("ID", "X1")]]⟩
            [("Name", ""), ("ID", "X1")] ≠ ""
          then Termly.rawIdOf
            ⟨1, "grades1.csv", some "Name", some "ID", none, none, [],
              [[("Name", ""), ("ID", "X1")]]⟩
            [("Name", ""), ("ID", "X1")]
          else "(no name)") :=
  ⟨c5_amended.1 [("X1", ⟨"X1", some "X1", []⟩)]
     ⟨1, "grades1.csv", some "Name", some "ID", none, none, [],
       [[("Name", "Alice"), ("ID", "X1")]]⟩
     [("Name", "Alice"), ("ID", "X1")] "X1" ⟨"X1", some "X1", []⟩ (by decide),
   c5_amended.2.2 []
     ⟨1, "grades1.csv", some "Name", some "ID", none, none, [],
       [[("Name", ""), ("ID", "X1")]]⟩
     [("Name", ""), ("ID", "X1")] (by decide)⟩

theorem nodup_map_pairwise {α β : Type} {f : α → β} {l : List α}
    (h : (l.map f).Nodup) : l.Pairwise (fun a b => f a ≠ f b) := by
  induction l with
  | nil => exact List.Pairwise.nil
  | cons x xs ih =>
    rw [List.map_cons, List.nodup_cons] at h
    refine List.Pairwise.cons ?_ (ih h.2)
    intro b hb hfb
    exact h.1 (hfb ▸ List.mem_map_of_mem f hb)

namespace Termly

theorem addQcols_exists_append (qs : List String) :
    ∀ g : List String, ∃ e, addQcols g qs = g ++ e := by
  induction qs with
  | nil => exact fun g => ⟨[], by simp [addQcols]⟩
  | cons q rest ih =>
    intro g
    rw [addQcols, List.foldl_cons]
    rw [show List.foldl (fun g q => if q ∈ g then g else g ++ [q])
          (if q ∈ g then g else g ++ [q]) rest
        = addQcols (if q ∈ g then g else g ++ [q]) rest from rfl]
    by_cases hq : q ∈ g
    · rw [if_pos hq]
      exact ih g
    · rw [if_neg hq]
      rcases ih (g ++ [q]) with ⟨e, he⟩
      exact ⟨[q] ++ e, by rw [he, List.append_assoc]⟩

theorem globalQcolsFrom_exists_append (files : List (Nat × List String)) :
    ∀ g : List String, ∃ e, globalQcolsFrom g files = g ++ e := by
  induction files with
  | nil => exact fun g => ⟨[], by simp [globalQcolsFrom]⟩
  | cons nf rest ih =>
    intro g
    rw [globalQcolsFrom, List.foldl_cons]
    rw [show List.foldl (fun g nf => addQcols g (detect_question_columns nf.2))
          (addQcols g (detect_question_columns nf.2)) rest
        = globalQcolsFrom (addQcols g (detect_question_columns nf.2)) rest from rfl]
    rcases addQcols_exists_append (detect_question_columns nf.2) g with ⟨e₁, he₁⟩
    rcases ih (addQcols g (detect_question_columns nf.2)) with ⟨e₂, he₂⟩
    exact ⟨e₁ ++ e₂, by rw [he₂, he₁, List.append_assoc]⟩

theorem globalQcolsFrom_append (g : List String)
    (l₁ l₂ : List (Nat × List String)) :
    globalQcolsFrom g (l₁ ++ l₂) = globalQcolsFrom (globalQcolsFrom g l₁) l₂ := by
  rw [globalQcolsFrom, globalQcolsFrom, globalQcolsFrom, List.foldl_append]

theorem find_all_grades_files_perm_eq {c₁ c₂ : List (Nat × List String)}
    (hp : List.Perm c₁ c₂) (hnd : (c₁.map Prod.fst).Nodup) :
    find_all_grades_files c₁ = find_all_grades_files c₂ := by
  haveI : IsAntisymm (Nat × List String) (fun a b => a.1 < b.1) :=
    ⟨fun a b h1 h2 => absurd (h1.trans h2) (lt_irrefl _)⟩
  unfold find_all_grades_files
  have hperm : List.Perm (insSortBy (fun p => p.1) c₁) (insSortBy (fun p => p.1) c₂) :=
    ((insSortBy_perm _ c₁).trans hp).trans (insSortBy_perm _ c₂).symm
  have hnd₁ : ((insSortBy (fun p => p.1) c₁).map Prod.fst).Nodup :=
    (((insSortBy_perm (fun p => p.1) c₁).map Prod.fst).nodup_iff).mpr hnd
  have hnd₂ : ((insSortBy (fun p => p.1) c₂).map Prod.fst).Nodup :=
    (((insSortBy_perm (fun p => p.1) c₂).map Prod.fst).nodup_iff).mpr
      (((hp.map Prod.fst).nodup_iff).mp hnd)
  have hlt₁ : (insSortBy (fun p => p.1) c₁).Pairwise (fun a b => a.1 < b.1) :=
    ((insSortBy_pairwise (fun p => p.1) c₁).and (nodup_map_pairwise hnd₁)).imp
      (fun h => lt_of_le_of_ne h.1 h.2)
  have hlt₂ : (insSortBy (fun p => p.1) c₂).Pairwise (fun a b => a.1 < b.1) :=
    ((insSortBy_pairwise (fun p => p.1) c₂).and (nodup_map_pairwise hnd₂)).imp
      (fun h => lt_of_le_of_ne h.1 h.2)
  exact List.eq_of_perm_of_sorted hperm hlt₁ hlt₂

end Termly

/-- Claim C6: as the aggregator scans ledgers in ascending
assignment-number order, the global question-column union after a longer
prefix extends the union after a shorter prefix (so it is a superset and
previously placed columns are never moved), and the result is invariant
under permuting the scanned candidate files when assignment numbers are
distinct — the final order depends only on ascending assignment number of
first appearance. -/
theorem c6_union_monotone_and_order_independent :
    (∀ pre post : List (Nat × List String),
      ∃ e, Termly.globalQcols (pre ++ post) = Termly.globalQcols pre ++ e)
    ∧ (∀ pre post : List (Nat × List String),
      ∀ q ∈ Termly.globalQcols pre, q ∈ Termly.globalQcols (pre ++ post))
    ∧ (∀ c₁ c₂ : List (Nat × List String), List.Perm c₁ c₂ →
      (c₁.map Prod.fst).Nodup →
      Termly.globalQcols (Termly.find_all_grades_files c₁)
        = Termly.globalQcols (Termly.find_all_grades_files c₂)) := by
  have hpre : ∀ pre post : List (Nat × List String),
      ∃ e, Termly.globalQcols (pre ++ post) = Termly.globalQcols pre ++ e := by
    intro pre post
    rw [Termly.globalQcols, Termly.globalQcols, Termly.globalQcolsFrom_append]
    exact Termly.globalQcolsFrom_exists_append post _
  refine ⟨hpre, ?_, ?_⟩
  · intro pre post q hq
    rcases hpre pre post with ⟨e, he⟩
    rw [he]
    exact List.mem_append_left _ hq
  · intro c₁ c₂ hp hnd
    rw [Termly.find_all_grades_files_perm_eq hp hnd]

/-- Claim C6 witness: the theorem applied at concrete candidate lists —
a two-file prefix extension and two permutations of the same candidate
set. -/
theorem c6_witness :
    (∃ e, Termly.globalQcols [(1, ["Name", "Q1", "Q3"]), (2, ["Q2", "Q1"])]
      = Termly.globalQcols [(1, ["Name", "Q1", "Q3"])] ++ e)
    ∧ Termly.globalQcols (Termly.find_all_grades_files
        [(2, ["Q2", "Q1"]), (1, ["Name", "Q1", "Q3"])])
      = Termly.globalQcols (Termly.find_all_grades_files
        [(1, ["Name", "Q1", "Q3"]), (2, ["Q2", "Q1"])]) :=
  ⟨c6_union_monotone_and_order_independent.1
     [(1, ["Name", "Q1", "Q3"])] [(2, ["Q2", "Q1"])],
   c6_union_monotone_and_order_independent.2.2
     [(2, ["Q2", "Q1"]), (1, ["Name", "Q1", "Q3"])]
     [(1, ["Name", "Q1", "Q3"]), (2, ["Q2", "Q1"])]
     (by decide) (by decide)⟩

/-- Claim C7: `detect_question_columns` returns the numbered question
columns stably sorted ascending by their embedded number (the sorted list
is a permutation of the input-order numbered columns, is pairwise ascending
on the numbers, and for every fixed number the tied columns keep their
input order), followed by the unnumbered question-like columns in input
order; it is deterministic — equal headers give equal output. -/
theorem c7_detect_question_columns_ordered (h : List String) :
    Termly.detect_question_columns h
      = (insSortBy (fun p => p.2) (Termly.numberedQCols h)).map Prod.fst
        ++ h.filter (fun fn => Termly.isUnnumberedQ fn)
    ∧ List.Perm ((insSortBy (fun p => p.2) (Termly.numberedQCols h)).map Prod.fst)
        ((Termly.numberedQCols h).map Prod.fst)
    ∧ (insSortBy (fun p => p.2) (Termly.numberedQCols h)).Pairwise
        (fun a b => a.2 ≤ b.2)
    ∧ (∀ k : Nat, (insSortBy (fun p => p.2) (Termly.numberedQCols h)).filter
        (fun p => p.2 = k) = (Termly.numberedQCols h).filter (fun p => p.2 = k))
    ∧ (∀ h' : List String, h = h' →
        Termly.detect_question_columns h = Termly.detect_question_columns h') := by
  refine ⟨rfl, (insSortBy_perm _ _).map Prod.fst, insSortBy_pairwise _ _,
    fun k => insSortBy_filter_key (fun p => p.2) (Termly.numberedQCols h) k, ?_⟩
  intro h' hh
  rw [hh]

/-- Claim C7 witness: the theorem applied at the concrete header
`["Q10", "Q2", "quiz"]`, whose resolved order is `["Q2", "Q10", "quiz"]`. -/
theorem c7_witness :
    Termly.detect_question_columns ["Q10", "Q2", "quiz"]
      = Termly.detect_question_columns ["Q10", "Q2", "quiz"]
    ∧ Termly.detect_question_columns ["Q10", "Q2", "quiz"]
      = ["Q2", "Q10", "quiz"] :=
  ⟨(c7_detect_question_columns_ordered ["Q10", "Q2", "quiz"]).2.2.2.2
      ["Q10", "Q2", "quiz"] rfl,
   by decide⟩

namespace Mark

theorem indexOf_append_not_mem {A : List String} {x : String} (B : List String)
    (h : x ∉ A) : (A ++ x :: B).indexOf x = A.length := by
  induction A with
  | nil => simp [List.indexOf_cons_self]
  | cons a A' ih =>
    simp only [List.mem_cons, not_or] at h
    rw [List.cons_append, List.indexOf_cons_ne _ (fun hh => h.1 hh.symm),
      ih h.2, List.length_cons]

theorem insertQKeys_decomp :
    ∀ qs : List String, qs.Nodup →
    ∀ A B : List String,
      insertQKeys (A ++ B) A.length qs
        = A ++ qs.filter (fun q => q ∉ A ++ B) ++ B := by
  intro qs
  induction qs with
  | nil => intro _ A B; simp [insertQKeys]
  | cons q rest ih =>
    intro hnd A B
    rw [List.nodup_cons] at hnd
    rw [insertQKeys]
    by_cases hq : q ∈ A ++ B
    · rw [if_pos hq, ih hnd.2 A B,
        List.filter_cons_of_neg (by simp [hq])]
    · rw [if_neg hq, insertAt_decomp, List.filter_cons_of_pos (by simp [hq])]
      have hlen : A.length + 1 = (A ++ ["q₀"]).length := by simp
      have hstep : insertQKeys (A ++ q :: B) (A.length + 1) rest
          = (A ++ [q]) ++ rest.filter (fun r => r ∉ (A ++ [q]) ++ B) ++ B := by
        have := ih hnd.2 (A ++ [q]) B
        rw [List.length_append, List.length_singleton] at this
        rw [List.append_cons A q B]
        exact this
      rw [hstep]
      have hfil : rest.filter (fun r => r ∉ (A ++ [q]) ++ B)
          = rest.filter (fun r => r ∉ A ++ B) := by
        apply List.filter_congr
        intro r hr
        have hrq : r ≠ q := fun hh => hnd.1 (hh ▸ hr)
        simp only [List.append_assoc, List.singleton_append, List.mem_append,
          List.mem_cons, decide_eq_decide]
        constructor
        · intro hcon
          intro hob
          rcases hob with hA | hB
          · exact hcon (Or.inl hA)
          · exact hcon (Or.inr (Or.inr hB))
        · intro hcon
          intro hob
          rcases hob with hA | hqb
          · exact hcon (Or.inl hA)
          · rcases hqb with rfl | hB
            · exact hrq rfl
            · exact hcon (Or.inr hB)
      rw [hfil]
      simp [List.append_assoc]

theorem incomingQKeys_nodup {f : List (String × String)}
    (hnd : (f.map Prod.fst).Nodup) : (incomingQKeys f).Nodup :=
  ((insSortBy_perm qKeyNum _).nodup_iff).mpr (hnd.filter isQKey)

theorem incomingQKeys_pairwise (f : List (String × String)) :
    (incomingQKeys f).Pairwise (fun a b => qKeyNum a ≤ qKeyNum b) :=
  insSortBy_pairwise qKeyNum _

end Mark

/-- Claim C1 counterexample: on a ledger whose header already contains `Q1`,
an update introducing the new question column `Q2` inserts it immediately
after `Overall` — *before* the pre-existing `Q1` — so the final header's
question columns are not in ascending numeric order relative to each
other. -/
theorem c1_counterexample :
    (Mark.append_grades_row
        (some ⟨["Name", "SubmissionTime", "Feedback", "Overall", "Q1"],
          [["Alice", "", "", "3", "7"]]⟩)
        [("Name", "Alice"), ("Q2", "5")]).header
      = ["Name", "SubmissionTime", "Feedback", "Overall", "Q2", "Q1"]
    ∧ (["Name", "SubmissionTime", "Feedback", "Overall", "Q2", "Q1"].indexOf "Q2"
        < ["Name", "SubmissionTime", "Feedback", "Overall", "Q2", "Q1"].indexOf "Q1")
    ∧ Mark.qKeyNum "Q1" < Mark.qKeyNum "Q2" := by decide

/-- Claim C1 (amended): the new question columns introduced by one
`append_grades_row` call are inserted as a contiguous block immediately
after `Overall`, in ascending numeric order relative to *each other*; they
are placed before all pre-existing question columns regardless of numeric
value (the pre-existing header tail `B` follows the block unchanged, and
any non-question new fields are appended at the very end). -/
theorem c1_amended (L : Mark.Ledger) (f : List (String × String))
    (A B : List String)
    (hnd : (f.map Prod.fst).Nodup)
    (hdecomp : Mark.ensureBaseColumns L.header = A ++ "Overall" :: B)
    (hA : "Overall" ∉ A) :
    ∃ E, (Mark.append_grades_row (some L) f).header
        = A ++ "Overall" :: ((Mark.incomingQKeys f).filter
            (fun q => q ∉ A ++ "Overall" :: B) ++ B ++ E)
      ∧ ((Mark.incomingQKeys f).filter
          (fun q => q ∉ A ++ "Overall" :: B)).Pairwise
          (fun a b => Mark.qKeyNum a ≤ Mark.qKeyNum b) := by
  have hpw : ((Mark.incomingQKeys f).filter
      (fun q => q ∉ A ++ "Overall" :: B)).Pairwise
      (fun a b => Mark.qKeyNum a ≤ Mark.qKeyNum b) :=
    (Mark.incomingQKeys_pairwise f).sublist (List.filter_sublist _)
  rw [Mark.append_header_some, Mark.updateHeader, hdecomp]
  have hpos : Mark.qInsertPos (A ++ "Overall" :: B) = A.length + 1 := by
    rw [Mark.qInsertPos, if_pos (by simp), Mark.indexOf_append_not_mem B hA]
  rw [hpos]
  have hins : Mark.insertQKeys (A ++ "Overall" :: B) (A.length + 1)
      (Mark.incomingQKeys f)
      = (A ++ ["Overall"]) ++ (Mark.incomingQKeys f).filter
          (fun q => q ∉ (A ++ ["Overall"]) ++ B) ++ B := by
    have := Mark.insertQKeys_decomp (Mark.incomingQKeys f)
      (Mark.incomingQKeys_nodup hnd) (A ++ ["Overall"]) B
    rw [List.length_append, List.length_singleton] at this
    rw [List.append_cons A "Overall" B]
    exact this
  have hfil : (Mark.incomingQKeys f).filter
      (fun q => q ∉ (A ++ ["Overall"]) ++ B)
      = (Mark.incomingQKeys f).filter (fun q => q ∉ A ++ "Overall" :: B) := by
    apply List.filter_congr
    intro r _
    rw [List.append_cons A "Overall" B]
  rw [hins, hfil]
  have hfo : Mark.ensureFeedbackOverall
      ((A ++ ["Overall"]) ++ (Mark.incomingQKeys f).filter
        (fun q => q ∉ A ++ "Overall" :: B) ++ B)
      = (A ++ ["Overall"]) ++ (Mark.incomingQKeys f).filter
        (fun q => q ∉ A ++ "Overall" :: B) ++ B := by
    apply Mark.ensureFeedbackOverall_of_mem
    · have hfb : "Feedback" ∈ A ++ "Overall" :: B := by
        rw [← hdecomp]
        exact Mark.base_mem_ensureBaseColumns L.header (by simp [Mark.baseColumns])
      rcases List.mem_append.mp hfb with hfa | hfob
      · exact List.mem_append_left B
          (List.mem_append_left _ (List.mem_append_left ["Overall"] hfa))
      · rcases List.mem_cons.mp hfob with hfo | hfB
        · exact absurd hfo (by decide)
        · exact List.mem_append_right _ hfB
    · exact List.mem_append_left B
        (List.mem_append_left _ (List.mem_append_right A (by simp)))
  rw [hfo]
  rcases Mark.appendMissingKeys_exists_append
      ((A ++ ["Overall"]) ++ (Mark.incomingQKeys f).filter
        (fun q => q ∉ A ++ "Overall" :: B) ++ B) (f.map Prod.fst)
    with ⟨E, hE⟩
  refine ⟨E, ?_, hpw⟩
  rw [hE]
  simp [List.append_assoc]

/-- Claim C1 witness: the amended theorem applied at a ledger whose header
is `[Name, SubmissionTime, Feedback, Overall, Q1]` and an update
introducing `Q3` and `Q2`. -/
theorem c1_amended_witness :
    ∃ E, (Mark.append_grades_row
        (some ⟨["Name", "SubmissionTime", "Feedback", "Overall", "Q1"],
          [["Alice", "", "", "3", "7"]]⟩)
        [("Name", "Alice"), ("Q3", "4"), ("Q2", "5")]).header
        = ["Name", "SubmissionTime", "Feedback"] ++ "Overall" ::
            ((Mark.incomingQKeys [("Name", "Alice"), ("Q3", "4"), ("Q2", "5")]).filter
              (fun q => q ∉ ["Name", "SubmissionTime", "Feedback"]
                ++ "Overall" :: ["Q1"]) ++ ["Q1"] ++ E)
      ∧ ((Mark.incomingQKeys [("Name", "Alice"), ("Q3", "4"), ("Q2", "5")]).filter
          (fun q => q ∉ ["Name", "SubmissionTime", "Feedback"]
            ++ "Overall" :: ["Q1"])).Pairwise
          (fun a b => Mark.qKeyNum a ≤ Mark.qKeyNum b) :=
  c1_amended
    ⟨["Name", "SubmissionTime", "Feedback", "Overall", "Q1"],
      [["Alice", "", "", "3", "7"]]⟩
    [("Name", "Alice"), ("Q3", "4"), ("Q2", "5")]
    ["Name", "SubmissionTime", "Feedback"] ["Q1"]
    (by decide) (by decide) (by decide)

theorem alGet_zip_isSome {header : List String} {vals : List String} {c : String}
    (hc : c ∈ header) (hlen : vals.length = header.length) :
    ∃ v, alGet (header.zip vals) c = some v := by
  induction header generalizing vals with
  | nil => simp at hc
  | cons c₀ t ih =>
    cases vals with
    | nil => simp at hlen
    | cons v vs =>
      by_cases h₀ : c₀ = c
      · exact ⟨v, by rw [List.zip_cons_cons, alGet, if_pos h₀]⟩
      · have hct : c ∈ t := by
          rcases List.mem_cons.mp hc with rfl | hct
          · exact absurd rfl h₀
          · exact hct
        have hlen' : vs.length = t.length := by simpa using hlen
        rcases ih hct hlen' with ⟨v', hv'⟩
        exact ⟨v', by rw [List.zip_cons_cons, alGet, if_neg h₀, hv']⟩

namespace Mark

theorem cellAt_graph (H : List String) (rows : List (List String)) (j : Nat)
    (r : List (String × String)) (c : String)
    (hrow : rows.getD j [] = H.map (fun c => (alGet r c).getD "")) :
    cellAt ⟨H, rows⟩ c j = if c ∈ H then some ((alGet r c).getD "") else none := by
  rw [cellAt]
  show alGet (H.zip (rows.getD j [])) c = _
  rw [hrow, zip_map_graph, alGet_graph]

end Mark

/-- Claim C4 counterexample: the matched row's `Overall` cell is stored as
`" 3 "`; an update touching only `Feedback` rewrites it as the trimmed
`"3"` — the stored value of an untouched column changed, refuting "left
untouched" for stored values that carry surrounding whitespace. -/
theorem c4_counterexample :
    Mark.append_grades_row
        (some ⟨["Name", "SubmissionTime", "Feedback", "Overall"],
          [["Alice", "", "", " 3 "]]⟩)
        [("Name", "Alice"), ("Feedback", "hi")]
      = ⟨["Name", "SubmissionTime", "Feedback", "Overall"],
          [["Alice", "", "hi", "3"]]⟩
    ∧ Mark.cellAt
        ⟨["Name", "SubmissionTime", "Feedback", "Overall"], [["Alice", "", "", " 3 "]]⟩
        "Overall" 0 = some " 3 "
    ∧ Mark.cellAt
        (Mark.append_grades_row
          (some ⟨["Name", "SubmissionTime", "Feedback", "Overall"],
            [["Alice", "", "", " 3 "]]⟩)
          [("Name", "Alice"), ("Feedback", "hi")])
        "Overall" 0 = some "3"
    ∧ (" 3 " : String) ≠ "3" := by decide

/-- Claim C4 (amended): when a row matches the incoming `Name`
(case-insensitively, trimmed), `append_grades_row` overwrites on that row
exactly the supplied fields; every other cell of that row, and every cell
of every other row, is stored as the whitespace-trimmed form of its
previous value (so already-trimmed cells are untouched), and cells of newly
added columns are stored as `""`. -/
theorem c4_amended (L : Mark.Ledger) (f : List (String × String)) (i : Nat)
    (hnd : (f.map Prod.fst).Nodup)
    (_hnodup : L.header.Nodup)
    (halign : ∀ r ∈ L.rows, r.length = L.header.length)
    (hm : Mark.findMatch (pyStrip ((alGet f "Name").getD ""))
        (L.rows.map (Mark.readRow L.header)) = some i) :
    (Mark.append_grades_row (some L) f).rows.length = L.rows.length
    ∧ (∀ c ∈ L.header, ∀ j, j < L.rows.length → j ≠ i →
        Mark.cellAt (Mark.append_grades_row (some L) f) c j
          = (Mark.cellAt L c j).map pyStrip)
    ∧ (∀ c ∈ (Mark.append_grades_row (some L) f).header, c ∉ L.header →
        ∀ j, j < L.rows.length → j ≠ i →
        Mark.cellAt (Mark.append_grades_row (some L) f) c j = some "")
    ∧ (∀ c v, alGet f c = some v →
        Mark.cellAt (Mark.append_grades_row (some L) f) c i = some v)
    ∧ (∀ c ∈ L.header, c ∉ f.map Prod.fst →
        Mark.cellAt (Mark.append_grades_row (some L) f) c i
          = (Mark.cellAt L c i).map pyStrip)
    ∧ (∀ c ∈ (Mark.append_grades_row (some L) f).header, c ∉ L.header →
        c ∉ f.map Prod.fst →
        Mark.cellAt (Mark.append_grades_row (some L) f) c i = some "") := by
  have hi' : i < (L.rows.map (Mark.readRow L.header)).length := by
    rw [Mark.findMatch] at hm
    split at hm
    · exact absurd hm (by simp)
    · exact findFirstIdx_some_lt hm
  have hi : i < L.rows.length := by simpa using hi'
  have hrows : (Mark.append_grades_row (some L) f).rows
      = ((L.rows.map (Mark.readRow L.header)).set i
          (Mark.setFields ((L.rows.map (Mark.readRow L.header)).getD i []) f)).map
        (fun r => Mark.projectRow (Mark.updateHeader L.header f)
          (Mark.fillRow (Mark.updateHeader L.header f) r)) := by
    rw [Mark.append_rows_some, hm]
  have hheader : (Mark.append_grades_row (some L) f).header
      = Mark.updateHeader L.header f := Mark.append_header_some L f
  have hlen : (Mark.append_grades_row (some L) f).rows.length = L.rows.length := by
    rw [hrows]
    simp
  -- the row dict underlying output row j
  have hrow_at : ∀ j, j < L.rows.length →
      (Mark.append_grades_row (some L) f).rows.getD j []
        = (Mark.updateHeader L.header f).map
            (fun c => (alGet
              (((L.rows.map (Mark.readRow L.header)).set i
                (Mark.setFields ((L.rows.map (Mark.readRow L.header)).getD i []) f)).getD
                j []) c).getD "") := by
    intro j hj
    rw [hrows]
    have hj' : j < ((L.rows.map (Mark.readRow L.header)).set i
        (Mark.setFields ((L.rows.map (Mark.readRow L.header)).getD i []) f)).length := by
      simpa using hj
    rw [List.getD_eq_getElem _ _ (by simpa using hj'), List.getElem_map,
      List.getD_eq_getElem _ _ hj']
    rw [Mark.projectRow_fillRow]
  -- the underlying dict for j ≠ i is the read row, for j = i the updated row
  have hday : ∀ j, j < L.rows.length → j ≠ i →
      ((L.rows.map (Mark.readRow L.header)).set i
        (Mark.setFields ((L.rows.map (Mark.readRow L.header)).getD i []) f)).getD j []
        = Mark.readRow L.header (L.rows.getD j []) := by
    intro j hj hji
    rw [Mark.getD_set_ne _ _ _ (by simpa using hj) hji,
      List.getD_eq_getElem _ _ (by simpa using hj), List.getElem_map,
      List.getD_eq_getElem _ _ hj]
  have hdi : ((L.rows.map (Mark.readRow L.header)).set i
      (Mark.setFields ((L.rows.map (Mark.readRow L.header)).getD i []) f)).getD i []
      = Mark.setFields (Mark.readRow L.header (L.rows.getD i [])) f := by
    rw [Mark.getD_set_self _ _ _ _ hi']
    rw [List.getD_eq_getElem _ _ hi', List.getElem_map, List.getD_eq_getElem _ _ hi]
  -- a generic cell computation on the output ledger
  have hcell : ∀ c j, j < L.rows.length →
      Mark.cellAt (Mark.append_grades_row (some L) f) c j
        = if c ∈ Mark.updateHeader L.header f
          then some ((alGet
            (((L.rows.map (Mark.readRow L.header)).set i
              (Mark.setFields ((L.rows.map (Mark.readRow L.header)).getD i []) f)).getD
              j []) c).getD "")
          else none := by
    intro c j hj
    rw [Mark.cellAt, hheader, hrow_at j hj, zip_map_graph, alGet_graph]
  refine ⟨hlen, ?_, ?_, ?_, ?_, ?_⟩
  · intro c hc j hj hji
    rw [hcell c j hj, if_pos (Mark.mem_updateHeader_of_mem hc), hday j hj hji,
      Mark.alGet_readRow]
    rcases alGet_zip_isSome hc (halign (L.rows.getD j []) (by
        rw [List.getD_eq_getElem _ _ hj]; exact List.getElem_mem hj)) with ⟨v, hv⟩
    rw [Mark.cellAt, hv]
    rfl
  · intro c hc hcl j hj hji
    rw [hcell c j hj, if_pos (hheader ▸ hc), hday j hj hji, Mark.alGet_readRow,
      Mark.alGet_zip_not_mem _ hcl]
    rfl
  · intro c v hv
    have hck : c ∈ f.map Prod.fst := by
      rcases alGet_mem hv with hmem
      exact List.mem_map_of_mem Prod.fst hmem
    rw [hcell c i hi, if_pos (Mark.keys_mem_updateHeader hck), hdi,
      alGet_setFields_mem hnd hv]
    rfl
  · intro c hc hcf
    rw [hcell c i hi, if_pos (Mark.mem_updateHeader_of_mem hc), hdi,
      alGet_setFields_not_mem hcf, Mark.alGet_readRow]
    rcases alGet_zip_isSome hc (halign (L.rows.getD i []) (by
        rw [List.getD_eq_getElem _ _ hi]; exact List.getElem_mem hi)) with ⟨v, hv⟩
    rw [Mark.cellAt, hv]
    rfl
  · intro c hc hcl hcf
    rw [hcell c i hi, if_pos (hheader ▸ hc), hdi, alGet_setFields_not_mem hcf,
      Mark.alGet_readRow, Mark.alGet_zip_not_mem _ hcl]
    rfl

/-- Claim C4 witness: the amended theorem applied at a concrete matched
ledger — the untouched `Overall` cell is re-stored trimmed, the supplied
`Feedback` is overwritten, the other row is untouched. -/
theorem c4_amended_witness :
    (Mark.append_grades_row
        (some ⟨["Name", "SubmissionTime", "Feedback", "Overall"],
          [["Alice", "", "", "3"], ["Bob", "", "", "2"]]⟩)
        [("Name", "Alice"), ("Feedback", "hi")]).rows.length
      = (⟨["Name", "SubmissionTime", "Feedback", "Overall"],
          [["Alice", "", "", "3"], ["Bob", "", "", "2"]]⟩ : Mark.Ledger).rows.length
    ∧ Mark.cellAt
        (Mark.append_grades_row
          (some ⟨["Name", "SubmissionTime", "Feedback", "Overall"],
            [["Alice", "", "", "3"], ["Bob", "", "", "2"]]⟩)
          [("Name", "Alice"), ("Feedback", "hi")]) "Feedback" 0 = some "hi"
    ∧ Mark.cellAt
        (Mark.append_grades_row
          (some ⟨["Name", "SubmissionTime", "Feedback", "Overall"],
            [["Alice", "", "", "3"], ["Bob", "", "", "2"]]⟩)
          [("Name", "Alice"), ("Feedback", "hi")]) "Overall" 0
      = (Mark.cellAt
          ⟨["Name", "SubmissionTime", "Feedback", "Overall"],
            [["Alice", "", "", "3"], ["Bob", "", "", "2"]]⟩ "Overall" 0).map pyStrip
    ∧ Mark.cellAt
        (Mark.append_grades_row
          (some ⟨["Name", "SubmissionTime", "Feedback", "Overall"],
            [["Alice", "", "", "3"], ["Bob", "", "", "2"]]⟩)
          [("Name", "Alice"), ("Feedback", "hi")]) "Overall" 1
      = (Mark.cellAt
          ⟨["Name", "SubmissionTime", "Feedback", "Overall"],
            [["Alice", "", "", "3"], ["Bob", "", "", "2"]]⟩ "Overall" 1).map pyStrip :=
  ⟨(c4_amended
      ⟨["Name", "SubmissionTime", "Feedback", "Overall"],
        [["Alice", "", "", "3"], ["Bob", "", "", "2"]]⟩
      [("Name", "Alice"), ("Feedback", "hi")] 0
      (by decide) (by decide) (by decide) (by decide)).1,
   (c4_amended
      ⟨["Name", "SubmissionTime", "Feedback", "Overall"],
        [["Alice", "", "", "3"], ["Bob", "", "", "2"]]⟩
      [("Name", "Alice"), ("Feedback", "hi")] 0
      (by decide) (by decide) (by decide) (by decide)).2.2.2.1
     "Feedback" "hi" (by decide),
   (c4_amended
      ⟨["Name", "SubmissionTime", "Feedback", "Overall"],
        [["Alice", "", "", "3"], ["Bob", "", "", "2"]]⟩
      [("Name", "Alice"), ("Feedback", "hi")] 0
      (by decide) (by decide) (by decide) (by decide)).2.2.2.2.1
     "Overall" (by decide) (by decide),
   (c4_amended
      ⟨["Name", "SubmissionTime", "Feedback", "Overall"],
        [["Alice", "", "", "3"], ["Bob", "", "", "2"]]⟩
      [("Name", "Alice"), ("Feedback", "hi")] 0
      (by decide) (by decide) (by decide) (by decide)).2.1
     "Overall" (by decide) 1 (by decide) (by decide)⟩
